import Mathlib

/-
Shallow embedding of the hkex-filing-scraper core (utils.py, db.py, api.py,
pipeline.py) and proofs about it.

Modelling conventions, used throughout:
* Python strings are `List Char`; `len` is `List.length`; `encode("utf-8")`
  byte counts are `utf8len` (sum of UTF-8 sizes).
* Python float expressions such as `int(n * 1.1)` are modelled by exact
  rational arithmetic with floor, e.g. `(n * 11) / 10` on `Nat`; the claims
  settled here are insensitive to the sub-ulp rounding of IEEE doubles at
  the magnitudes involved.
* Network and database effects are oracles passed in as function arguments;
  a call's observable behaviour (the request text submitted, the parsed
  response consumed, the status rows written) is made explicit in returned
  values.
* `hashlib.md5` hex digests are opaque inputs (an external library call).
* The parallel download pool of pipeline.run_phase2 is modelled by
  processing the download tasks of a batch in task order; the claims under
  study only depend on the multiset of per-task outcomes, not on thread
  completion order.
-/

set_option autoImplicit false

namespace Hkex

/-- Newline character, code point 10. -/
def nlC : Char := Char.ofNat 10

/-- Carriage-return character, code point 13. -/
def crC : Char := Char.ofNat 13

/-- Tab character, code point 9. -/
def tabC : Char := Char.ofNat 9

/-- Backslash character, code point 92. -/
def bsC : Char := Char.ofNat 92

/-- Single-quote character, code point 39. -/
def qtC : Char := Char.ofNat 39

/-- Space character, code point 32. -/
def spC : Char := Char.ofNat 32

/-- Colon character, code point 58. -/
def colonC : Char := Char.ofNat 58

/-- Slash character, code point 47. -/
def slashC : Char := Char.ofNat 47

/-- Question-mark character, code point 63. -/
def qmC : Char := Char.ofNat 63

/-- Hash character, code point 35. -/
def hashC : Char := Char.ofNat 35

/-- Opening square bracket, code point 91. -/
def lbC : Char := Char.ofNat 91

/-- Closing square bracket, code point 93. -/
def rbC : Char := Char.ofNat 93

/-- Comma character, code point 44. -/
def commaC : Char := Char.ofNat 44

/-- Semicolon character, code point 59. -/
def semiC : Char := Char.ofNat 59

/-- Ampersand character, code point 38. -/
def ampC : Char := Char.ofNat 38

/-- NUL character, code point 0 (a non-printable control character). -/
def nulC : Char := Char.ofNat 0

/-- Model of Python `str.isprintable` on a single character.  Exact on the
Latin-1 range (control characters 0x00-0x1F and 0x7F-0xA0 are not printable,
space 0x20 is printable per CPython); for higher code points the main
non-printable separator/format characters are listed.  Every input exercised
by the theorems below is in the ASCII range, where this is exact. -/
def pyIsPrintable (c : Char) : Bool :=
  let v := c.toNat
  if v < 0x20 then false
  else if 0x7F ≤ v && v ≤ 0xA0 then false
  else if v = 0xAD then false
  else if 0x2000 ≤ v && v ≤ 0x200F then false
  else if v = 0x2028 || v = 0x2029 || v = 0x202F || v = 0x205F then false
  else if v = 0x3000 || v = 0xFEFF then false
  else true

/-- Model of Python whitespace (the regex whitespace class and `str.strip`):
ASCII whitespace, the controls 0x1C-0x1F and 0x85, and the Unicode space
separators. -/
def pyIsSpace (c : Char) : Bool :=
  let v := c.toNat
  v = 0x20 || (9 ≤ v && v ≤ 13) || (0x1C ≤ v && v ≤ 0x1F) || v = 0x85 ||
    v = 0xA0 || v = 0x1680 || (0x2000 ≤ v && v ≤ 0x200A) ||
    v = 0x2028 || v = 0x2029 || v = 0x202F || v = 0x205F || v = 0x3000

/-- UTF-8 encoded byte length of a character list (Python
`len(s.encode("utf-8"))`). -/
def utf8len (l : List Char) : Nat := (l.map Char.utf8Size).sum

/-- The whitespace-to-space replacement step of `escape_sql` (the chain of
single-character `str.replace` calls is a per-character map). -/
def escReplaceWs (c : Char) : Char :=
  if c = nlC then spC else if c = crC then spC else if c = tabC then spC else c

/-- utils.escape_sql: escape a value for a SurrealQL single-quoted string
literal.  Four sequential passes, as in the source: drop non-printable
characters, replace the three ASCII whitespace controls by spaces, double
backslashes, escape single quotes. -/
def escape_sql (s : List Char) : List Char :=
  let r1 := s.filter (fun c => pyIsPrintable c || c = spC)
  let r2 := r1.map escReplaceWs
  let r3 := r2.flatMap (fun c => if c = bsC then [bsC, bsC] else [c])
  let r4 := r3.flatMap (fun c => if c = qtC then [bsC, qtC] else [c])
  r4

/-- What `escape_sql` does to one input character. -/
def escChar (c : Char) : List Char :=
  if pyIsPrintable c || c = spC then
    if escReplaceWs c = bsC then [bsC, bsC]
    else if escReplaceWs c = qtC then [bsC, qtC]
    else [escReplaceWs c]
  else []

/-- Python `s.rfind(nl)` restricted to the information the callers use:
the index of the last newline, or `none` when there is none (Python -1). -/
def rfindNl : List Char → Option Nat
  | [] => none
  | c :: t =>
    match rfindNl t with
    | some i => some (i + 1)
    | none => if c = nlC then some 0 else none

/-- The trim-to-last-complete-line step used by pipeline._save_document_to_filing
after every text truncation: cut at the last newline of the already-truncated
text `t`, but only when that newline lies past half of the truncation target. -/
def trimToLine (t : List Char) (target : Nat) : List Char :=
  match rfindNl t with
  | none => t
  | some i => if target / 2 < i then t.take i else t

/-- Python `s.split(nl)` (the lines of `s`; splitting on a separator keeps
empty segments, and the split of the empty string is one empty segment). -/
def splitNl : List Char → List (List Char)
  | [] => [[]]
  | c :: t =>
    match splitNl t with
    | [] => [[c]]
    | h :: hs => if c = nlC then [] :: h :: hs else (c :: h) :: hs

/-- Python `"\n".join(statements)` as used by db.upsert_batch_with_retry. -/
def joinNl : List (List Char) → List Char
  | [] => []
  | [s] => s
  | s :: rest => s ++ nlC :: joinNl rest

/-- Worker for the regex whitespace-run collapse of utils.squash_ws; the
flag records whether the previous character belonged to a whitespace run. -/
def collapseWsAux : Bool → List Char → List Char
  | _, [] => []
  | inRun, c :: t =>
    if pyIsSpace c then
      if inRun then collapseWsAux true t else spC :: collapseWsAux true t
    else c :: collapseWsAux false t

/-- The regex whitespace-run collapse used by utils.squash_ws: each maximal
run of whitespace becomes a single space. -/
def collapseWs (l : List Char) : List Char := collapseWsAux false l

/-- Python `str.strip()`: drop whitespace from both ends. -/
def pyStrip (l : List Char) : List Char :=
  ((l.dropWhile (fun c => pyIsSpace c)).reverse.dropWhile (fun c => pyIsSpace c)).reverse

/-- utils.squash_ws: replace control / zero-width characters by spaces,
collapse whitespace runs, strip. -/
def squash_ws (s : List Char) : List Char :=
  let cleaned := s.map (fun c => if pyIsPrintable c || c = spC then c else spC)
  pyStrip (collapseWs cleaned)

/-- Decimal rendering of a natural number, Python `str(n)` for `n >= 0`. -/
def natChars (n : Nat) : List Char := (Nat.repr n).toList

/-- Python `str.lower()`; exact on ASCII, which is all the callers feed it. -/
def lowerL (l : List Char) : List Char := l.map Char.toLower

/-- Python substring containment `pat in s`. -/
def containsSub (pat : List Char) : List Char → Bool
  | [] => pat.isEmpty
  | c :: t => pat.isPrefixOf (c :: t) || containsSub pat t

/-- Python `s.split(ch)[0]` for a single-character separator. -/
def takeUntilCh (ch : Char) (l : List Char) : List Char :=
  l.takeWhile (fun c => !(c == ch))

/-- Python `s.split(pat)[0]` for a multi-character separator: the segment
before the first occurrence of `pat` (the whole string when absent). -/
def takeBeforeSeq (pat : List Char) : List Char → List Char
  | [] => []
  | c :: t => if pat.isPrefixOf (c :: t) then [] else c :: takeBeforeSeq pat t

/-- Worker for `replaceSeq`; the fuel only serves to make the recursion
structural, and any fuel of at least the input length gives the replacement
semantics (each step consumes at least one character). -/
def replaceSeqFuel (pat rep : List Char) : Nat → List Char → List Char
  | 0, l => l
  | _, [] => []
  | fuel + 1, c :: t =>
    if pat ≠ [] ∧ pat.isPrefixOf (c :: t) then
      rep ++ replaceSeqFuel pat rep fuel ((c :: t).drop pat.length)
    else c :: replaceSeqFuel pat rep fuel t

/-- Python `s.replace(pat, rep)` for a nonempty pattern: replace every
non-overlapping occurrence, scanning left to right. -/
def replaceSeq (pat rep : List Char) (l : List Char) : List Char :=
  replaceSeqFuel pat rep l.length l

/-- Python `record_id.split(colon)[-1]`: the segment after the last colon
(the whole string when there is none). -/
def afterLastColon (l : List Char) : List Char :=
  (l.reverse.takeWhile (fun c => !(c == colonC))).reverse

/-! ## db.py: batch upsert with binary-split retry -/

/-- Worker for db.upsert_batch_with_retry with structural fuel.  The
recursion of the source is on strictly shorter halves of the statement list,
so any fuel of at least the list length reproduces it exactly (the
fuel-congruence theorem below); fuel 0 is only reachable on the empty list,
which the source answers with 0 before contacting the backend. -/
def upsertFuel (ok : List Char → Bool) :
    Nat → List (List Char) → Nat → Nat → Nat × List (List Char)
  | _, [], _, _ => (0, [])
  | 0, _, _, _ => (0, [])
  | fuel + 1, s :: rest, depth, maxDepth =>
    if ok (joinNl (s :: rest)) then ((s :: rest).length, [])
    else if maxDepth ≤ depth ∨ (s :: rest).length = 1 then (0, [s])
    else
      let mid := (s :: rest).length / 2
      let lres := upsertFuel ok fuel ((s :: rest).take mid) (depth + 1) maxDepth
      let rres := upsertFuel ok fuel ((s :: rest).drop mid) (depth + 1) maxDepth
      (lres.1 + rres.1, lres.2 ++ rres.2)

/-- db.upsert_batch_with_retry.  The SurrealDB backend is abstracted by the
oracle `ok`, which receives the joined request text that `surreal_query`
would send and returns `true` exactly when the parsed response carries no
error (the source's `isinstance(res, dict) and res.get("error")` test being
falsy).  The returned pair is (count successfully written, statements
appended to the side failure log `hkex_failed.sql`); on a terminal failure
the source appends `statements[0]`. -/
def upsert_batch_with_retry (ok : List Char → Bool) (statements : List (List Char))
    (depth : Nat) (maxDepth : Nat) : Nat × List (List Char) :=
  upsertFuel ok statements.length statements depth maxDepth

/-! ## pipeline.py: payload sizer (_save_document_to_filing) -/

/-- Modelled from the spec: `MAX_SQL_BODY_SIZE` is imported by pipeline.py
from `.config` but is missing from src/config.py; the spec fixes the target
ceiling at 900 KB ("We target 900 KB to leave headroom"), so the constant is
taken as 900 * 1024 bytes, matching the style of the other config constants. -/
def MAX_SQL_BODY_SIZE : Nat := 900 * 1024

/-- pipeline: bytes reserved for the UPDATE ... SET wrapper in the estimate. -/
def SQL_OVERHEAD_ESTIMATE : Nat := 1024

/-- pipeline: the hard SurrealDB Cloud body limit, 1_048_576 bytes. -/
def HARD_BODY_LIMIT : Nat := 1048576

/-- The comma-space join of JSON list elements (the default separator of
Python json.dumps). -/
def jsonJoin : List (List Char) → List Char
  | [] => []
  | [t] => t
  | t :: rest => t ++ [commaC, spC] ++ jsonJoin rest

/-- Python `json.dumps(tables, ensure_ascii=False)` for a list, abstracted at
the element level: each table is represented by its own dumps string, and the
list rendering joins them with the default ", " separator inside brackets
(for the empty list this is "[]", which is also what the source substitutes
for a falsy `tables_json`). -/
def listJson (ts : List (List Char)) : List Char :=
  [lbC] ++ jsonJoin ts ++ [rbC]

/-- The running-size accounting of the keep-tables loop: each table costs
its encoded size plus 2 (the source's comma-plus-space allowance). -/
def tableCost (ts : List (List Char)) : Nat :=
  (ts.map (fun t => utf8len t + 2)).sum

/-- The greedy keep-whole-tables loop of _save_document_to_filing: keep
tables in original order while the running size (starting at 2 for the
brackets, plus encoded size plus 2 per kept table) stays within the budget;
stop at the first table that would overflow. -/
def keepTables (budget : Nat) : List (List Char) → Nat → List (List Char)
  | [], _ => []
  | t :: ts, running =>
    if budget < running + utf8len t + 2 then []
    else t :: keepTables budget ts (running + utf8len t + 2)

/-- Python `int(a / 1.1)` on an int `a` (float division then truncation
toward zero), modelled exactly as rational truncation. -/
def pyTrunc10Div11 (a : Int) : Int :=
  if 0 ≤ a then ((a.toNat * 10) / 11 : Nat)
  else -(((((-a).toNat) * 10) / 11 : Nat))

/-- Result of the pre-truncation stage of _save_document_to_filing: the text
to save, the kept tables (as a list and as their JSON rendering), the table
count, and whether anything was truncated. -/
structure PreOut where
  text : List Char
  keptTables : List (List Char)
  tablesStr : List Char
  tcnt : Nat
  truncated : Bool
deriving DecidableEq

/-- The pre-truncation stage of pipeline._save_document_to_filing: estimate
the SQL payload (text * 1.1 + tables JSON + overhead) and, when over the
target ceiling, truncate the text (keeping all tables) when at least 50 KB
of text budget remains, otherwise truncate the tables to a 200 KB sub-budget
and then the text into the remaining space; each text cut is trimmed back to
the last complete line when that newline lies past the halfway point. -/
def preTruncate (extractedText : List Char) (tablesJson : List (List Char)) : PreOut :=
  let nativeTables := listJson tablesJson
  let tablesPayloadSize := utf8len nativeTables
  let estimatedTextBytes := extractedText.length * 11 / 10
  let estimatedTotal := estimatedTextBytes + tablesPayloadSize + SQL_OVERHEAD_ESTIMATE
  if MAX_SQL_BODY_SIZE < estimatedTotal then
    let availableForText : Int :=
      (MAX_SQL_BODY_SIZE : Int) - tablesPayloadSize - SQL_OVERHEAD_ESTIMATE
    if 50000 < availableForText then
      let targetChars := (pyTrunc10Div11 availableForText).toNat
      ⟨trimToLine (extractedText.take targetChars) targetChars,
        tablesJson, nativeTables, tablesJson.length, true⟩
    else
      let kept := keepTables (200 * 1024) tablesJson 2
      let nativeTables2 := listJson kept
      let tablesPayloadSize2 := utf8len nativeTables2
      let availableForText2 : Int :=
        (MAX_SQL_BODY_SIZE : Int) - tablesPayloadSize2 - SQL_OVERHEAD_ESTIMATE
      let targetChars := (max (pyTrunc10Div11 availableForText2) 50000).toNat
      ⟨trimToLine (extractedText.take targetChars) targetChars,
        kept, nativeTables2, kept.length, true⟩
  else ⟨extractedText, tablesJson, nativeTables, tablesJson.length, false⟩

/-- The reason string `_build_save_sql` stores:
"truncated_from_{original_text_len}" when truncated, else empty. -/
def truncReason (truncated : Bool) (originalTextLen : Nat) : List Char :=
  if truncated then ("truncated_from_").toList ++ natChars originalTextLen else []

/-- The `ext.endswith(...)` document-type chain of _save_document_to_filing,
applied to `doc_url.lower().split(qm)[0].split(hash)[0]`. -/
def urlStem (u : List Char) : List Char :=
  takeUntilCh hashC (takeUntilCh qmC (lowerL u))

/-- Document type derived from the URL in _save_document_to_filing. -/
def docTypeOf (docUrl : List Char) : List Char :=
  let ext := urlStem docUrl
  if (".pdf").toList.isSuffixOf ext then ("pdf").toList
  else if (".htm").toList.isSuffixOf ext ∨ (".html").toList.isSuffixOf ext then ("html").toList
  else if (".xlsx").toList.isSuffixOf ext ∨ (".xls").toList.isSuffixOf ext then ("xlsx").toList
  else if (".doc").toList.isSuffixOf ext ∨ (".docx").toList.isSuffixOf ext then ("docx").toList
  else ("unknown").toList

/-- pipeline._build_save_sql, transcribed segment by segment from the format
template (Python str formatting of a nonnegative int is `natChars`). -/
def buildSaveSql (fid : List Char) (sizeBytes : Nat) (docType docHash : List Char)
    (origLen : Nat) (text : List Char) (tablesStr : List Char) (tblCount : Nat)
    (status : List Char) (truncated : Bool) : List Char :=
  let safeText := if text = [] then [] else escape_sql text
  ("UPDATE exchange_filing:").toList ++ fid ++ (" SET").toList ++ [nlC] ++
  ("  documentSize     = ").toList ++ natChars sizeBytes ++ [commaC, nlC] ++
  ("  documentType     = ").toList ++ [qtC] ++ docType ++ [qtC, commaC, nlC] ++
  ("  documentHash     = ").toList ++ [qtC] ++ docHash ++ [qtC, commaC, nlC] ++
  ("  documentText     = ").toList ++ [qtC] ++ safeText ++ [qtC, commaC, nlC] ++
  ("  documentTextLen  = ").toList ++ natChars text.length ++ [commaC, nlC] ++
  ("  documentTables   = ").toList ++ tablesStr ++ [commaC, nlC] ++
  ("  documentTableCnt = ").toList ++ natChars tblCount ++ [commaC, nlC] ++
  ("  documentStatus   = ").toList ++ [qtC] ++ status ++ [qtC, commaC, nlC] ++
  ("  documentStatusReason = ").toList ++ [qtC] ++ truncReason truncated origLen ++
    [qtC, commaC, nlC] ++
  ("  updatedAt        = time::now()").toList ++ [nlC] ++
  ("RETURN NONE;").toList ++ [nlC]

/-- The emergency re-truncation target of _save_document_to_filing:
`int(len(text) * (MAX_SQL_BODY_SIZE / actual_size) * 0.85)`. -/
def emergencyTarget (textLen actualSize : Nat) : Nat :=
  textLen * MAX_SQL_BODY_SIZE * 85 / (actualSize * 100)

/-- The first request _save_document_to_filing submits: the SQL built from
the pre-truncated payload, re-built once with the emergency-truncated text
when its actual encoded size exceeds the 1 MiB hard limit. -/
def firstAttemptSql (fid : List Char) (sizeBytes : Nat) (docType docHash : List Char)
    (origLen : Nat) (pre : PreOut) : List Char :=
  let sql := buildSaveSql fid sizeBytes docType docHash origLen pre.text
    pre.tablesStr pre.tcnt ("processed").toList pre.truncated
  let actualSize := utf8len sql
  if HARD_BODY_LIMIT < actualSize then
    let target := emergencyTarget pre.text.length actualSize
    let newText := trimToLine (pre.text.take target) target
    buildSaveSql fid sizeBytes docType docHash origLen newText
      pre.tablesStr pre.tcnt ("processed").toList true
  else sql

/-- The first request body _save_document_to_filing builds, before the final
actual-size check (the arguments are the raw inputs of the save; the text and
tables come out of the pre-truncation stage). -/
def sizerSql0 (fid : List Char) (sizeBytes : Nat) (docUrl docHash : List Char)
    (extractedText : List Char) (tablesJson : List (List Char)) : List Char :=
  buildSaveSql fid sizeBytes (docTypeOf docUrl) docHash extractedText.length
    (preTruncate extractedText tablesJson).text
    (preTruncate extractedText tablesJson).tablesStr
    (preTruncate extractedText tablesJson).tcnt ("processed").toList
    (preTruncate extractedText tablesJson).truncated

/-- The emergency-truncated text of _save_document_to_filing: the
pre-truncated text cut to the proportional 0.85 target computed from the
actual encoded size of the first build, trimmed to the last line when that
newline lies past the halfway point. -/
def sizerEmergencyText (fid : List Char) (sizeBytes : Nat) (docUrl docHash : List Char)
    (extractedText : List Char) (tablesJson : List (List Char)) : List Char :=
  trimToLine
    ((preTruncate extractedText tablesJson).text.take
      (emergencyTarget (preTruncate extractedText tablesJson).text.length
        (utf8len (sizerSql0 fid sizeBytes docUrl docHash extractedText tablesJson))))
    (emergencyTarget (preTruncate extractedText tablesJson).text.length
      (utf8len (sizerSql0 fid sizeBytes docUrl docHash extractedText tablesJson)))

/-- The request _save_document_to_filing submits on its first surreal_query
call, emergency re-truncation included. -/
def sizerSubmitted (fid : List Char) (sizeBytes : Nat) (docUrl docHash : List Char)
    (extractedText : List Char) (tablesJson : List (List Char)) : List Char :=
  firstAttemptSql fid sizeBytes (docTypeOf docUrl) docHash extractedText.length
    (preTruncate extractedText tablesJson)

/-- Counterexample input for the 1 MiB guarantee: 524300 backslashes (each
escaping to two bytes) followed by 312586 NUL characters (dropped by
escape_sql), so the 1.1x estimate passes while the encoded size does not. -/
def ce1Text : List Char :=
  List.replicate 524300 bsC ++ List.replicate 312586 nulC

/-- A parsed surreal_query response, restricted to what the source inspects:
whether it is a dict, and the string under its "error" key ([] when absent
or falsy). -/
structure QueryRes where
  isDict : Bool
  error : List Char
deriving DecidableEq

/-- The source's `isinstance(result, dict) and result.get("error")` test. -/
def hasError (r : QueryRes) : Bool := r.isDict && !(r.error.isEmpty)

/-- The connection-reset signatures recognised by pipeline._is_413. -/
def resetSigs : List (List Char) :=
  [("10053").toList, ("10054").toList, ("ECONNRESET").toList,
   ("Connection aborted").toList, ("Connection reset").toList,
   ("RemoteDisconnected").toList, ("BrokenPipeError").toList]

/-- pipeline._is_413: body-too-large detection including connection resets. -/
def is413 (r : QueryRes) : Bool :=
  if !r.isDict then false
  else if containsSub ("413").toList r.error then true
  else if resetSigs.any (fun sig => containsSub sig r.error) then true
  else false

/-- Outcome of _save_document_to_filing: the (success, error_code) pair the
source returns, plus the list of requests submitted to surreal_query, in
order, so the claims can talk about what was sent. -/
structure SaveRes where
  success : Bool
  errorCode : List Char
  submitted : List (List Char)
deriving DecidableEq

/-- pipeline._save_document_to_filing.  `resp1` and `resp2` are the parsed
responses the backend oracle returns for the first and (when reached) the
retry surreal_query call; `docHash` stands for the md5 hex digest of the
raw bytes ("" when they are empty). -/
def saveDocumentToFiling (resp1 resp2 : QueryRes) (fid : List Char) (sizeBytes : Nat)
    (docUrl docHash : List Char) (extractedText : List Char)
    (tablesJson : List (List Char)) : SaveRes :=
  let docType := docTypeOf docUrl
  let origLen := extractedText.length
  let pre := preTruncate extractedText tablesJson
  let sql := firstAttemptSql fid sizeBytes docType docHash origLen pre
  if !(hasError resp1) then ⟨true, [], [sql]⟩
  else if is413 resp1 then
    let fallbackLimit := 500 * 1024
    let truncatedText := trimToLine (extractedText.take fallbackLimit) fallbackLimit
    let sqlRetry := buildSaveSql fid sizeBytes docType docHash origLen truncatedText
      ("[]").toList 0 ("processed").toList true
    if !(hasError resp2) then ⟨true, [], [sql, sqlRetry]⟩
    else ⟨false, ("http_413_truncation_failed").toList, [sql, sqlRetry]⟩
  else
    let err := if resp1.isDict then
        (if resp1.error.isEmpty then ("unknown").toList else resp1.error)
      else ("unknown").toList
    ⟨false, ("save_error:").toList ++ err.take 100, [sql]⟩

/-! ## pipeline.py: document download -/

/-- pipeline: the 25 MB per-document download cap. -/
def MAX_DOWNLOAD_SIZE : Nat := 25 * 1024 * 1024

/-- pipeline.SUPPORTED_EXTENSIONS. -/
def SUPPORTED_EXTENSIONS : List (List Char) :=
  [(".pdf").toList, (".htm").toList, (".html").toList, (".xlsx").toList,
   (".xls").toList, (".doc").toList, (".docx").toList]

/-- Outcome of one HTTP fetch, as seen by _download_document: a successful
response (optional Content-Length header, body bytes), an HTTPError with a
status code, or any other exception with its type name. -/
inductive HttpRes where
  | ok (contentLength : Option Nat) (body : List Nat)
  | httpError (code : Nat)
  | exc (excName : List Char)
deriving DecidableEq

/-- pipeline._download_document: returns (raw_bytes, size_bytes, skip_reason). -/
def downloadDocument (http : List Char → HttpRes) (url : List Char) :
    List Nat × Nat × List Char :=
  if url = [] then ([], 0, ("no_url").toList)
  else
    let u := urlStem url
    if !(SUPPORTED_EXTENSIONS.any (fun ext => ext.isSuffixOf u)) then
      ([], 0, ("unsupported_type").toList)
    else
      match http url with
      | .ok clen body =>
        if (match clen with
            | some v => decide (MAX_DOWNLOAD_SIZE < v)
            | none => false) then
          ([], 0, ("too_large").toList)
        else if MAX_DOWNLOAD_SIZE < body.length then ([], 0, ("too_large").toList)
        else (body, body.length, [])
      | .httpError code => ([], 0, ("http_").toList ++ natChars code)
      | .exc n => ([], 0, ("error:").toList ++ n)

/-! ## api.py: record normalizer -/

/-- A raw HKEx API JSON record, restricted to the keys _parse_api_record
reads. -/
structure RawRecord where
  dateTime : List Char
  stockCode : List Char
  stockName : List Char
  title : List Char
  fileLink : List Char
deriving DecidableEq

/-- The canonical filing shape produced by the record normalizer. -/
structure FilingOut where
  date : List Char
  stockCode : List Char
  stockName : List Char
  title : List Char
  link : List Char
deriving DecidableEq

/-- config.HKEX_BASE_URL. -/
def HKEX_BASE_URL : List Char := ("https://www1.hkexnews.hk").toList

/-- api._parse_api_record: convert a raw HKEx API record into the internal
filing format.  A pure function of the record. -/
def parse_api_record (record : RawRecord) : FilingOut :=
  let datePart :=
    if record.dateTime = [] then [] else record.dateTime.takeWhile (fun c => !(c == spC))
  let rawCode := pyStrip (takeBeforeSeq ("<br/>").toList record.stockCode)
  let rawName := pyStrip (takeBeforeSeq ("<br/>").toList record.stockName)
  let fileLink :=
    if record.fileLink.head? = some slashC then HKEX_BASE_URL ++ record.fileLink
    else record.fileLink
  let title1 := replaceSeq ("&#x3b;").toList [semiC] record.title
  let title2 := replaceSeq ("&amp;").toList [ampC] title1
  ⟨datePart, rawCode, squash_ws rawName, squash_ws title2, fileLink⟩

/-- The claim-side reading of the date rule, following the spec words
literally: the first token of DATE_TIME delimited by the slash character. -/
def specDateRule (dt : List Char) : List Char :=
  dt.takeWhile (fun c => !(c == slashC))

/-- Modelled from the spec (amended wording) as the refinement target for
the record normalizer: take the first space-delimited token of DATE_TIME as
the date; take the first segment before the multi-value delimiter for code
and name and strip it; resolve links starting with a slash against the known
base; decode the two HTML entities; collapse whitespace and strip
non-printable characters from the name and title. -/
def normalizeSpecAmended (r : RawRecord) : FilingOut :=
  { date := if r.dateTime = [] then []
      else r.dateTime.takeWhile (fun c => !(c == spC))
    stockCode := pyStrip (takeBeforeSeq ("<br/>").toList r.stockCode)
    stockName := squash_ws (pyStrip (takeBeforeSeq ("<br/>").toList r.stockName))
    title := squash_ws
      (replaceSeq ("&amp;").toList [ampC] (replaceSeq ("&#x3b;").toList [semiC] r.title))
    link := if r.fileLink.head? = some slashC then HKEX_BASE_URL ++ r.fileLink
      else r.fileLink }

/-! ## pipeline.py: phase 2 backfill driver (run_phase2) -/

/-- One row of the phase-2 SELECT: id, filingId, documentUrl (filingDate is
only used for ordering inside the backend and is not modelled). -/
structure FilingRec where
  recordId : List Char
  filingId : List Char
  documentUrl : List Char
deriving DecidableEq

/-- run_phase2's fid extraction:
`record_id.split(colon)[-1] if colon in record_id else f.get("filingId", "")`. -/
def parsedFid (f : FilingRec) : List Char :=
  if containsSub [colonC] f.recordId then afterLastColon f.recordId else f.filingId

/-- One observable status write: a `_mark_filing_status(fid, status, reason)`
call, or a successful document save (status "processed"; the model leaves
the reason field empty for saves, the claims never inspect it there). -/
structure Upd where
  fid : List Char
  status : List Char
  reason : List Char
deriving DecidableEq

/-- The `stats` dict of run_phase2. -/
structure P2Stats where
  totalMissing : Nat
  totalProcessed : Nat
  docsDownloaded : Nat
  textsExtracted : Nat
  tablesTotal : Nat
  skipped : Nat
  errors : Nat
deriving DecidableEq

/-- Per-batch summary recorded by the model: rows fetched, download tasks
built, documents saved (batch_downloaded), download-phase skips
(batch_skipped).  The source's stall test is on saved + skippedDl. -/
structure BatchSum where
  fetched : Nat
  tasks : Nat
  saved : Nat
  skippedDl : Nat
deriving DecidableEq

/-- Result of a phase-2 run: final stats, the status writes in order, and
the per-batch summaries. -/
structure RunOut where
  stats : P2Stats
  updates : List Upd
  batches : List BatchSum
deriving DecidableEq

/-- The external world of run_phase2: the unprocessed-filings count query,
the per-batch SELECT (batch number, LIMIT value), the HTTP fetch, the
content extractor (raw bytes, url), md5, and the two backend responses
consumed by each document save, keyed by filing id. -/
structure P2Env where
  countMissing : Nat
  fetch : Nat → Nat → List FilingRec
  http : List Char → HttpRes
  extract : List Nat → List Char → List Char × List (List Char)
  md5hex : List Nat → List Char
  saveResp : List Char → QueryRes × QueryRes

/-- Download tasks and immediate no-url skips built from a fetched batch. -/
structure TasksOut where
  tasks : List (List Char × List Char)
  updates : List Upd
  skipped : Nat
deriving DecidableEq

/-- The task-building loop of run_phase2: a filing with a fid and a url
becomes a task; with a fid but no url it is marked skipped (no_document_url);
with no fid it is silently ignored. -/
def buildTasks : List FilingRec → TasksOut
  | [] => ⟨[], [], 0⟩
  | f :: fs =>
    let rest := buildTasks fs
    let fid := parsedFid f
    if fid ≠ [] ∧ f.documentUrl ≠ [] then
      ⟨(fid, f.documentUrl) :: rest.tasks, rest.updates, rest.skipped⟩
    else if fid ≠ [] then
      ⟨rest.tasks, ⟨fid, ("skipped").toList, ("no_document_url").toList⟩ :: rest.updates,
        rest.skipped + 1⟩
    else rest

/-- One successfully downloaded document: (fid, doc_url, raw_bytes, size). -/
structure DlDoc where
  fid : List Char
  url : List Char
  bytes : List Nat
  size : Nat
deriving DecidableEq

/-- Outcome of the download phase of one batch. -/
structure DlOut where
  docs : List DlDoc
  updates : List Upd
  skipped : Nat
deriving DecidableEq

/-- The download phase of run_phase2 over the batch's tasks: nonempty bytes
join the extraction queue, anything else is marked skipped with the reason
(or download_failed when the reason is empty). -/
def downloadPhase (http : List Char → HttpRes) :
    List (List Char × List Char) → DlOut
  | [] => ⟨[], [], 0⟩
  | t :: ts =>
    let rest := downloadPhase http ts
    let r := downloadDocument http t.2
    if r.1 ≠ [] then ⟨⟨t.1, t.2, r.1, r.2.1⟩ :: rest.docs, rest.updates, rest.skipped⟩
    else
      ⟨rest.docs,
        ⟨t.1, ("skipped").toList,
          if r.2.2 = [] then ("download_failed").toList else r.2.2⟩ :: rest.updates,
        rest.skipped + 1⟩

/-- Outcome of the sequential extract-and-persist phase of one batch. -/
structure PersistOut where
  saved : Nat
  texts : Nat
  tables : Nat
  updates : List Upd
  errors : Nat
deriving DecidableEq

/-- The extract-and-persist phase of run_phase2: extraction failures are
caught in the source (the extractor collaborator never raises in the model);
a successful save counts the document and its text/tables, a failed save
marks the filing failed with the error code and bumps the error count. -/
def persistPhase (env : P2Env) : List DlDoc → PersistOut
  | [] => ⟨0, 0, 0, [], 0⟩
  | d :: ds =>
    let rest := persistPhase env ds
    let et := env.extract d.bytes d.url
    let resps := env.saveResp d.fid
    let sres := saveDocumentToFiling resps.1 resps.2 d.fid d.size d.url
      (env.md5hex d.bytes) et.1 et.2
    if sres.success then
      ⟨rest.saved + 1, rest.texts + (if et.1 ≠ [] then 1 else 0),
        rest.tables + (if et.2 ≠ [] then et.2.length else 0),
        ⟨d.fid, ("processed").toList, []⟩ :: rest.updates, rest.errors⟩
    else
      ⟨rest.saved, rest.texts, rest.tables,
        ⟨d.fid, ("failed").toList,
          if sres.errorCode = [] then ("save_error").toList else sres.errorCode⟩ ::
          rest.updates,
        rest.errors + 1⟩

/-- The mutable state of the run_phase2 while-loop. -/
structure LoopSt where
  stats : P2Stats
  batchNum : Nat
  stalls : Nat
  updates : List Upd
  batches : List BatchSum

/-- The while-loop of run_phase2, with explicit fuel.  The loop makes
progress of at least one on total_processed in every iteration that does
not return, so `runPhase2` hands it fuel `effLimit + 1`, which the fuel
lemma below shows can never be exhausted before the loop condition fails. -/
def phase2Loop (env : P2Env) (batchSize effLimit : Nat) :
    Nat → LoopSt → RunOut
  | 0, st => ⟨st.stats, st.updates, st.batches⟩
  | fuel + 1, st =>
    if st.stats.totalProcessed < effLimit then
      let batchNum := st.batchNum + 1
      let remaining := effLimit - st.stats.totalProcessed
      let thisBatch := min batchSize remaining
      let filings := env.fetch batchNum thisBatch
      if filings = [] then ⟨st.stats, st.updates, st.batches⟩
      else
        let tk := buildTasks filings
        let stats1 := { st.stats with skipped := st.stats.skipped + tk.skipped }
        if tk.tasks = [] then
          phase2Loop env batchSize effLimit fuel
            { stats := { stats1 with
                totalProcessed := stats1.totalProcessed + filings.length }
              batchNum := batchNum
              stalls := st.stalls
              updates := st.updates ++ tk.updates
              batches := st.batches ++ [⟨filings.length, 0, 0, 0⟩] }
        else
          let dl := downloadPhase env.http tk.tasks
          let stats2 := { stats1 with skipped := stats1.skipped + dl.skipped }
          let pp := persistPhase env dl.docs
          let stats3 := { stats2 with
            docsDownloaded := stats2.docsDownloaded + pp.saved
            textsExtracted := stats2.textsExtracted + pp.texts
            tablesTotal := stats2.tablesTotal + pp.tables
            totalProcessed := stats2.totalProcessed + filings.length
            errors := stats2.errors + pp.errors }
          let st2 : LoopSt :=
            { stats := stats3
              batchNum := batchNum
              stalls := st.stalls
              updates := st.updates ++ tk.updates ++ dl.updates ++ pp.updates
              batches := st.batches ++
                [⟨filings.length, tk.tasks.length, pp.saved, dl.skipped⟩] }
          if pp.saved + dl.skipped = 0 then
            if 3 ≤ st.stalls + 1 then ⟨st2.stats, st2.updates, st2.batches⟩
            else phase2Loop env batchSize effLimit fuel { st2 with stalls := st.stalls + 1 }
          else phase2Loop env batchSize effLimit fuel { st2 with stalls := 0 }
    else ⟨st.stats, st.updates, st.batches⟩

/-- pipeline.run_phase2: count the missing filings, then run the batch loop
until the effective limit is reached, the backend returns no rows, or three
consecutive stalls are detected. -/
def runPhase2 (env : P2Env) (batchSize limit : Nat) : RunOut :=
  let stats0 : P2Stats := ⟨env.countMissing, 0, 0, 0, 0, 0, 0⟩
  if env.countMissing = 0 then ⟨stats0, [], []⟩
  else
    let effLimit := if 0 < limit then limit else env.countMissing
    phase2Loop env batchSize effLimit (effLimit + 1) ⟨stats0, 0, 0, [], []⟩

/-- Claim-side predicate for "output ends at a newline boundary (no mid-line
cut)": the output is a proper initial segment of the input whose cut point
sits immediately before a newline of the input. -/
def endsAtLineBoundary (input output : List Char) : Prop :=
  output.length < input.length ∧ input[output.length]? = some nlC

/-- Oracle for the concrete single-malformed-statement batches: the backend
answers with an error exactly when the joined request mentions the malformed
statement (the single character D). -/
def c2okW : List Char → Bool := fun req => !(req.contains (Char.ofNat 68))

/-- A batch of seven one-character statements A..G (D is the malformed one). -/
def c2stmtsW : List (List Char) := (List.range 7).map (fun i => [Char.ofNat (65 + i)])

/-- A phase-2 row whose document always downloads but whose save always
fails: the backend keeps handing back the same row, so every batch stalls. -/
def c7rec : FilingRec :=
  ⟨("exchange_filing:1").toList, [], ("/doc/a.pdf").toList⟩

/-- Environment for the stall-termination run: 3 missing filings, every
SELECT with a positive LIMIT returns the same single row, downloads succeed,
every save is rejected with a non-413 backend error. -/
def env7ce : P2Env :=
  { countMissing := 3
    fetch := fun _ k => if 1 ≤ k then [c7rec] else []
    http := fun _ => HttpRes.ok none [1]
    extract := fun _ _ => ([Char.ofNat 97], [])
    md5hex := fun _ => ("d41d8").toList
    saveResp := fun _ => (⟨true, ("boom").toList⟩, ⟨true, ("boom").toList⟩) }

/-- The three rows of the end-to-end download-failure run: a and b carry
small valid documents, c's URL answers HTTP 404. -/
def c8recA : FilingRec := ⟨("exchange_filing:a").toList, [], ("/doc/a.pdf").toList⟩

/-- Second row of the end-to-end download-failure run. -/
def c8recB : FilingRec := ⟨("exchange_filing:b").toList, [], ("/doc/b.pdf").toList⟩

/-- Third row of the end-to-end download-failure run (its URL returns 404). -/
def c8recC : FilingRec := ⟨("exchange_filing:c").toList, [], ("/doc/c.pdf").toList⟩

/-- Environment for the end-to-end download-failure run: 3 missing filings
fetched in one batch, two URLs serve a 1-byte document, the third returns
HTTP 404, and the backend accepts every save. -/
def env8ce : P2Env :=
  { countMissing := 3
    fetch := fun n _ => if n = 1 then [c8recA, c8recB, c8recC] else []
    http := fun url => if url = ("/doc/c.pdf").toList then HttpRes.httpError 404
      else HttpRes.ok none [1]
    extract := fun _ _ => ([Char.ofNat 97], [])
    md5hex := fun _ => ("d41d8").toList
    saveResp := fun _ => (⟨false, []⟩, ⟨false, []⟩) }

/-! # Theorems -/

theorem utf8len_append (a b : List Char) :
    utf8len (a ++ b) = utf8len a + utf8len b := by
  simp [utf8len]

theorem utf8len_replicate (n : Nat) (c : Char) :
    utf8len (List.replicate n c) = n * c.utf8Size := by
  simp [utf8len, List.map_replicate, List.sum_replicate, smul_eq_mul]

theorem escape_sql_eq_flatMap (s : List Char) :
    escape_sql s = s.flatMap escChar := by
  induction s with
  | nil => rfl
  | cons c t ih =>
    simp only [escape_sql] at ih ⊢
    rw [List.filter_cons, List.flatMap_cons]
    by_cases hp : (pyIsPrintable c || c = spC) = true
    · rw [if_pos hp, List.map_cons, List.flatMap_cons, List.flatMap_append]
      by_cases hb : escReplaceWs c = bsC
      · rw [if_pos hb]
        simp [escChar, hp, hb, ih, show ¬(bsC = qtC) by decide]
      · rw [if_neg hb]
        by_cases hq : escReplaceWs c = qtC
        · simp [escChar, hp, hb, hq, ih, show ¬(qtC = bsC) by decide]
        · simp [escChar, hp, hb, hq, ih]
    · rw [if_neg hp]
      simp [escChar, hp, ih]

theorem escape_sql_append (a b : List Char) :
    escape_sql (a ++ b) = escape_sql a ++ escape_sql b := by
  simp [escape_sql_eq_flatMap]

theorem escape_sql_replicate (n : Nat) (c : Char) :
    escape_sql (List.replicate n c) = (List.replicate n (escChar c)).flatten := by
  rw [escape_sql_eq_flatMap]
  induction n with
  | zero => rfl
  | succ m ih => simp [List.replicate_succ, ih]

theorem flatten_replicate_pair (n : Nat) (c : Char) :
    (List.replicate n [c, c]).flatten = List.replicate (2 * n) c := by
  induction n with
  | zero => rfl
  | succ m ih =>
    rw [List.replicate_succ, List.flatten_cons, ih]
    have h2 : 2 * (m + 1) = (2 * m + 1) + 1 := by omega
    rw [h2, List.replicate_succ, List.replicate_succ]
    rfl

/-! ## Batch persister -/

theorem upsertFuel_congr (ok : List Char → Bool) :
    ∀ f1 f2 (stmts : List (List Char)) (depth maxDepth : Nat),
      stmts.length ≤ f1 → stmts.length ≤ f2 →
      upsertFuel ok f1 stmts depth maxDepth = upsertFuel ok f2 stmts depth maxDepth := by
  intro f1
  induction f1 with
  | zero =>
    intro f2 stmts depth maxDepth h1 _
    have hnil : stmts = [] := List.length_eq_zero.mp (Nat.le_zero.mp h1)
    subst hnil
    cases f2 <;> rfl
  | succ n ih =>
    intro f2 stmts depth maxDepth h1 h2
    cases stmts with
    | nil => cases f2 <;> rfl
    | cons s rest =>
      cases f2 with
      | zero => simp at h2
      | succ m =>
        have hstepL : upsertFuel ok (n + 1) (s :: rest) depth maxDepth =
            if ok (joinNl (s :: rest)) = true then ((s :: rest).length, [])
            else if maxDepth ≤ depth ∨ (s :: rest).length = 1 then (0, [s])
            else
              ((upsertFuel ok n ((s :: rest).take ((s :: rest).length / 2))
                  (depth + 1) maxDepth).1 +
                (upsertFuel ok n ((s :: rest).drop ((s :: rest).length / 2))
                  (depth + 1) maxDepth).1,
               (upsertFuel ok n ((s :: rest).take ((s :: rest).length / 2))
                  (depth + 1) maxDepth).2 ++
                (upsertFuel ok n ((s :: rest).drop ((s :: rest).length / 2))
                  (depth + 1) maxDepth).2) := rfl
        have hstepR : upsertFuel ok (m + 1) (s :: rest) depth maxDepth =
            if ok (joinNl (s :: rest)) = true then ((s :: rest).length, [])
            else if maxDepth ≤ depth ∨ (s :: rest).length = 1 then (0, [s])
            else
              ((upsertFuel ok m ((s :: rest).take ((s :: rest).length / 2))
                  (depth + 1) maxDepth).1 +
                (upsertFuel ok m ((s :: rest).drop ((s :: rest).length / 2))
                  (depth + 1) maxDepth).1,
               (upsertFuel ok m ((s :: rest).take ((s :: rest).length / 2))
                  (depth + 1) maxDepth).2 ++
                (upsertFuel ok m ((s :: rest).drop ((s :: rest).length / 2))
                  (depth + 1) maxDepth).2) := rfl
        rw [hstepL, hstepR]
        by_cases hok : ok (joinNl (s :: rest)) = true
        · rw [if_pos hok, if_pos hok]
        · rw [if_neg hok, if_neg hok]
          by_cases hterm : maxDepth ≤ depth ∨ (s :: rest).length = 1
          · rw [if_pos hterm, if_pos hterm]
          · rw [if_neg hterm, if_neg hterm]
            have hlen : 2 ≤ (s :: rest).length := by
              have h1' : (s :: rest).length ≠ 1 := fun hc => hterm (Or.inr hc)
              simp only [List.length_cons] at h1' ⊢
              omega
            have htk : ((s :: rest).take ((s :: rest).length / 2)).length ≤ n := by
              simp only [List.length_take, List.length_cons] at *
              omega
            have htk2 : ((s :: rest).take ((s :: rest).length / 2)).length ≤ m := by
              simp only [List.length_take, List.length_cons] at *
              omega
            have hdp : ((s :: rest).drop ((s :: rest).length / 2)).length ≤ n := by
              simp only [List.length_drop, List.length_cons] at *
              omega
            have hdp2 : ((s :: rest).drop ((s :: rest).length / 2)).length ≤ m := by
              simp only [List.length_drop, List.length_cons] at *
              omega
            rw [ih m _ _ _ htk htk2, ih m _ _ _ hdp hdp2]

theorem upsert_unfold (ok : List Char → Bool) (s : List Char)
    (rest : List (List Char)) (depth maxDepth : Nat) :
    upsert_batch_with_retry ok (s :: rest) depth maxDepth =
      if ok (joinNl (s :: rest)) = true then ((s :: rest).length, [])
      else if maxDepth ≤ depth ∨ (s :: rest).length = 1 then (0, [s])
      else
        ((upsert_batch_with_retry ok ((s :: rest).take ((s :: rest).length / 2))
            (depth + 1) maxDepth).1 +
          (upsert_batch_with_retry ok ((s :: rest).drop ((s :: rest).length / 2))
            (depth + 1) maxDepth).1,
         (upsert_batch_with_retry ok ((s :: rest).take ((s :: rest).length / 2))
            (depth + 1) maxDepth).2 ++
          (upsert_batch_with_retry ok ((s :: rest).drop ((s :: rest).length / 2))
            (depth + 1) maxDepth).2) := by
  have hstep : upsert_batch_with_retry ok (s :: rest) depth maxDepth =
      if ok (joinNl (s :: rest)) = true then ((s :: rest).length, [])
      else if maxDepth ≤ depth ∨ (s :: rest).length = 1 then (0, [s])
      else
        ((upsertFuel ok rest.length ((s :: rest).take ((s :: rest).length / 2))
            (depth + 1) maxDepth).1 +
          (upsertFuel ok rest.length ((s :: rest).drop ((s :: rest).length / 2))
            (depth + 1) maxDepth).1,
         (upsertFuel ok rest.length ((s :: rest).take ((s :: rest).length / 2))
            (depth + 1) maxDepth).2 ++
          (upsertFuel ok rest.length ((s :: rest).drop ((s :: rest).length / 2))
            (depth + 1) maxDepth).2) := rfl
  rw [hstep]
  by_cases hok : ok (joinNl (s :: rest)) = true
  · rw [if_pos hok, if_pos hok]
  · rw [if_neg hok, if_neg hok]
    by_cases hterm : maxDepth ≤ depth ∨ (s :: rest).length = 1
    · rw [if_pos hterm, if_pos hterm]
    · rw [if_neg hterm, if_neg hterm]
      have hlen : 2 ≤ (s :: rest).length := by
        have h1' : (s :: rest).length ≠ 1 := fun hc => hterm (Or.inr hc)
        simp only [List.length_cons] at h1' ⊢
        omega
      have e1 : upsertFuel ok rest.length ((s :: rest).take ((s :: rest).length / 2))
          (depth + 1) maxDepth =
          upsert_batch_with_retry ok ((s :: rest).take ((s :: rest).length / 2))
            (depth + 1) maxDepth := by
        apply upsertFuel_congr
        · simp only [List.length_take, List.length_cons] at *
          omega
        · exact Nat.le_refl _
      have e2 : upsertFuel ok rest.length ((s :: rest).drop ((s :: rest).length / 2))
          (depth + 1) maxDepth =
          upsert_batch_with_retry ok ((s :: rest).drop ((s :: rest).length / 2))
            (depth + 1) maxDepth := by
        apply upsertFuel_congr
        · simp only [List.length_drop, List.length_cons] at *
          omega
        · exact Nat.le_refl _
      rw [e1, e2]

theorem upsert_all_ok (ok : List Char → Bool) (stmts : List (List Char))
    (depth maxDepth : Nat) (h : ok (joinNl stmts) = true) :
    upsert_batch_with_retry ok stmts depth maxDepth = (stmts.length, []) := by
  cases stmts with
  | nil => rfl
  | cons s rest => rw [upsert_unfold]; simp [h]

theorem upsert_isolate_aux (ok : List Char → Bool) (bad : List Char) :
    ∀ n, ∀ (stmts : List (List Char)) (depth : Nat), stmts.length = n →
      stmts.length ≤ 2 ^ (6 - depth) →
      (∀ sub ∈ stmts.sublists, (ok (joinNl sub) = true ↔ bad ∉ sub)) →
      stmts.count bad = 1 →
      upsert_batch_with_retry ok stmts depth 6 = (stmts.length - 1, [bad]) := by
  intro n
  induction n using Nat.strong_induction_on with
  | _ n ih =>
    intro stmts depth hlen hpow hsub hcnt
    cases stmts with
    | nil => simp at hcnt
    | cons s rest =>
      have hmem : bad ∈ s :: rest := by
        have : 0 < (s :: rest).count bad := by omega
        exact List.count_pos_iff.mp this
      have hok : ok (joinNl (s :: rest)) = false := by
        have hself : (s :: rest) ∈ (s :: rest).sublists :=
          List.mem_sublists.mpr (List.Sublist.refl _)
        have hiff := (hsub _ hself)
        rcases Bool.eq_false_or_eq_true (ok (joinNl (s :: rest))) with ht | hf
        · exact absurd (hiff.mp ht) (not_not_intro hmem)
        · exact hf
      by_cases hone : (s :: rest).length = 1
      · have hrest : rest = [] := by
          simp only [List.length_cons] at hone
          exact List.length_eq_zero.mp (by omega)
        subst hrest
        have hsb : s = bad := by
          by_contra hne
          simp [List.count_cons, List.count_nil] at hcnt
          exact hne hcnt
        subst hsb
        rw [upsert_unfold]
        simp [hok]
      · have hlen2 : 2 ≤ (s :: rest).length := by
          simp only [List.length_cons] at hone ⊢
          omega
        have hdepth : depth ≤ 5 := by
          by_contra hgt
          have h6 : 6 - depth = 0 := by omega
          rw [h6, pow_zero] at hpow
          omega
        have hterm : ¬(6 ≤ depth ∨ (s :: rest).length = 1) := by
          push_neg
          exact ⟨by omega, hone⟩
        rw [upsert_unfold]
        simp only [hok, Bool.false_eq_true, if_false, hterm]
        set L := (s :: rest).length with hL
        set mid := L / 2 with hmid
        have hmid1 : 1 ≤ mid := by omega
        have hmidlt : mid < L := by omega
        have htklen : ((s :: rest).take mid).length = mid := by
          simp only [List.length_take]
          omega
        have hdplen : ((s :: rest).drop mid).length = L - mid := by
          simp only [List.length_drop]
        have hsplit : (s :: rest).take mid ++ (s :: rest).drop mid = s :: rest :=
          List.take_append_drop _ _
        have hcnt2 : ((s :: rest).take mid).count bad + ((s :: rest).drop mid).count bad = 1 := by
          rw [← List.count_append, hsplit]
          exact hcnt
        have hsubtk : ∀ sub ∈ ((s :: rest).take mid).sublists,
            (ok (joinNl sub) = true ↔ bad ∉ sub) := by
          intro sub hs
          exact hsub sub (List.mem_sublists.mpr
            ((List.mem_sublists.mp hs).trans (List.take_sublist _ _)))
        have hsubdp : ∀ sub ∈ ((s :: rest).drop mid).sublists,
            (ok (joinNl sub) = true ↔ bad ∉ sub) := by
          intro sub hs
          exact hsub sub (List.mem_sublists.mpr
            ((List.mem_sublists.mp hs).trans (List.drop_sublist _ _)))
        have hksucc : 6 - depth = (5 - depth) + 1 := by omega
        have hpow2 : L ≤ 2 * 2 ^ (5 - depth) := by
          have := hpow
          rw [hksucc, pow_succ] at this
          omega
        have hd1 : 6 - (depth + 1) = 5 - depth := by omega
        have hpowtk : ((s :: rest).take mid).length ≤ 2 ^ (6 - (depth + 1)) := by
          rw [htklen, hd1]
          omega
        have hpowdp : ((s :: rest).drop mid).length ≤ 2 ^ (6 - (depth + 1)) := by
          rw [hdplen, hd1]
          omega
        rcases Nat.eq_zero_or_pos (((s :: rest).take mid).count bad) with hc0 | hcpos
        · have hcdp : ((s :: rest).drop mid).count bad = 1 := by omega
          have hnotin : bad ∉ (s :: rest).take mid := List.count_eq_zero.mp hc0
          have hokl : ok (joinNl ((s :: rest).take mid)) = true :=
            (hsubtk _ (List.mem_sublists.mpr (List.Sublist.refl _))).mpr hnotin
          have el : upsert_batch_with_retry ok ((s :: rest).take mid) (depth + 1) 6 =
              (mid, []) := by
            rw [upsert_all_ok ok _ _ _ hokl, htklen]
          have er : upsert_batch_with_retry ok ((s :: rest).drop mid) (depth + 1) 6 =
              (((s :: rest).drop mid).length - 1, [bad]) :=
            ih ((s :: rest).drop mid).length (by rw [hdplen]; omega) _ _ rfl hpowdp hsubdp hcdp
          simp only [el, er, hdplen]
          rw [Prod.mk.injEq]
          exact ⟨by omega, by simp⟩
        · have hctk : ((s :: rest).take mid).count bad = 1 := by omega
          have hcdp0 : ((s :: rest).drop mid).count bad = 0 := by omega
          have hnotin : bad ∉ (s :: rest).drop mid := List.count_eq_zero.mp hcdp0
          have hokr : ok (joinNl ((s :: rest).drop mid)) = true :=
            (hsubdp _ (List.mem_sublists.mpr (List.Sublist.refl _))).mpr hnotin
          have el : upsert_batch_with_retry ok ((s :: rest).take mid) (depth + 1) 6 =
              (mid - 1, [bad]) := by
            have hh := ih ((s :: rest).take mid).length (by rw [htklen]; omega) _ _ rfl hpowtk hsubtk hctk
            rw [hh, htklen]
          have er : upsert_batch_with_retry ok ((s :: rest).drop mid) (depth + 1) 6 =
              (L - mid, []) := by
            rw [upsert_all_ok ok _ _ _ hokr, hdplen]
          simp only [el, er]
          rw [Prod.mk.injEq]
          exact ⟨by omega, by simp⟩

/-- Claim C2: for every ordered batch of size 1, 2, 7 or 64 in which exactly
one statement is malformed — the backend errors exactly on the requests
whose statement list contains it and succeeds on the others —
upsert_batch_with_retry returns size - 1 and appends exactly one entry
(the malformed statement) to the side failure log. -/
theorem c2_single_malformed (ok : List Char → Bool) (stmts : List (List Char))
    (bad : List Char)
    (hsub : ∀ sub ∈ stmts.sublists, (ok (joinNl sub) = true ↔ bad ∉ sub))
    (hcnt : stmts.count bad = 1)
    (hsize : stmts.length = 1 ∨ stmts.length = 2 ∨ stmts.length = 7 ∨
      stmts.length = 64) :
    upsert_batch_with_retry ok stmts 0 6 = (stmts.length - 1, [bad]) := by
  apply upsert_isolate_aux ok bad stmts.length stmts 0 rfl ?_ hsub hcnt
  have h64 : stmts.length ≤ 64 := by rcases hsize with h | h | h | h <;> omega
  have hp : (2 : Nat) ^ (6 - 0) = 64 := by norm_num
  rw [hp]
  exact h64

set_option maxRecDepth 8192 in
/-- Witness for C2: the seven-statement batch A..G with malformed statement D
and the oracle that errors exactly on requests mentioning D. -/
theorem c2_witness :
    upsert_batch_with_retry c2okW c2stmtsW 0 6 = (6, [[Char.ofNat 68]]) := by
  have h := c2_single_malformed c2okW c2stmtsW [Char.ofNat 68]
    (by decide) (by decide) (by decide)
  simpa [c2stmtsW] using h

/-- Claim C3: persist joins all its statements into one request and sends it;
on success it returns the number of statements; on a backend error it either
(at depth at least 6 or with a single statement left) appends the head
statement to the side failure log and returns 0 for that subtree, or splits
the list at its midpoint, recurses on each half at depth + 1, and returns
the sum of the two counts (and the concatenation of the two logs). -/
theorem c3_persist_contract (ok : List Char → Bool) (stmts : List (List Char))
    (depth : Nat) (h : stmts ≠ []) :
    upsert_batch_with_retry ok stmts depth 6 =
      if ok (joinNl stmts) = true then (stmts.length, [])
      else if 6 ≤ depth ∨ stmts.length = 1 then (0, [stmts.head h])
      else
        ((upsert_batch_with_retry ok (stmts.take (stmts.length / 2)) (depth + 1) 6).1 +
          (upsert_batch_with_retry ok (stmts.drop (stmts.length / 2)) (depth + 1) 6).1,
         (upsert_batch_with_retry ok (stmts.take (stmts.length / 2)) (depth + 1) 6).2 ++
          (upsert_batch_with_retry ok (stmts.drop (stmts.length / 2)) (depth + 1) 6).2) := by
  cases stmts with
  | nil => exact absurd rfl h
  | cons s rest => exact upsert_unfold ok s rest depth 6

/-- Witness for C3: a singleton batch on a backend that accepts everything. -/
theorem c3_witness :
    upsert_batch_with_retry (fun _ => true) [("a").toList] 0 6 = (1, []) := by
  have h := c3_persist_contract (fun _ => true) [("a").toList] 0 (by simp)
  simpa using h

/-! ## escape_sql shape (claim C10) -/

theorem mem_escChar {c a : Char} (h : c ∈ escChar a) :
    c = bsC ∨ c = qtC ∨ c = escReplaceWs a := by
  unfold escChar at h
  split at h
  · split at h
    · simp at h
      exact Or.inl h
    · split at h
      · simp at h
        rcases h with h | h
        · exact Or.inl h
        · exact Or.inr (Or.inl h)
      · simp at h
        exact Or.inr (Or.inr h)
  · simp at h

theorem escReplaceWs_not_ws (a : Char) :
    escReplaceWs a ≠ nlC ∧ escReplaceWs a ≠ crC ∧ escReplaceWs a ≠ tabC := by
  unfold escReplaceWs
  split
  · exact ⟨by decide, by decide, by decide⟩
  · split
    · exact ⟨by decide, by decide, by decide⟩
    · split
      · exact ⟨by decide, by decide, by decide⟩
      · rename_i h1 h2 h3
        exact ⟨h1, h2, h3⟩

theorem escape_no_ctl (s : List Char) :
    ∀ c ∈ escape_sql s, c ≠ nlC ∧ c ≠ crC ∧ c ≠ tabC := by
  intro c hc
  rw [escape_sql_eq_flatMap] at hc
  rcases List.mem_flatMap.mp hc with ⟨a, _, hmem⟩
  rcases mem_escChar hmem with h | h | h
  · subst h; exact ⟨by decide, by decide, by decide⟩
  · subst h; exact ⟨by decide, by decide, by decide⟩
  · subst h; exact escReplaceWs_not_ws a

theorem escChar_shape (a : Char) :
    escChar a = [] ∨ escChar a = [bsC, bsC] ∨ escChar a = [bsC, qtC] ∨
      (∃ x, escChar a = [x] ∧ x ≠ qtC) := by
  unfold escChar
  split
  · split
    · right; left; rfl
    · split
      · right; right; left; rfl
      · rename_i hq
        right; right; right
        exact ⟨_, rfl, hq⟩
  · left; rfl

theorem escape_quote_escaped (l : List Char) :
    ∀ i, (l.flatMap escChar)[i]? = some qtC →
      1 ≤ i ∧ (l.flatMap escChar)[i - 1]? = some bsC := by
  induction l with
  | nil => intro i h; simp at h
  | cons a t ih =>
    intro i h
    rw [List.flatMap_cons] at h ⊢
    rcases escChar_shape a with h0 | h2 | hq | ⟨x, hx, hxq⟩
    · rw [h0] at h ⊢
      rw [List.nil_append] at h ⊢
      exact ih i h
    · rw [h2] at h ⊢
      match i with
      | 0 => simp at h; exact absurd h (by decide)
      | 1 => simp at h; exact absurd h (by decide)
      | (j + 2) =>
        simp only [List.cons_append, List.getElem?_cons_succ] at h
        have hih := ih j h
        obtain ⟨k, rfl⟩ : ∃ k, j = k + 1 := ⟨j - 1, by omega⟩
        refine ⟨by omega, ?_⟩
        simpa using hih.2
    · rw [hq] at h ⊢
      match i with
      | 0 => simp at h; exact absurd h (by decide)
      | 1 => refine ⟨Nat.le_refl _, ?_⟩; simp
      | (j + 2) =>
        simp only [List.cons_append, List.getElem?_cons_succ] at h
        have hih := ih j h
        obtain ⟨k, rfl⟩ : ∃ k, j = k + 1 := ⟨j - 1, by omega⟩
        refine ⟨by omega, ?_⟩
        simpa using hih.2
    · rw [hx] at h ⊢
      match i with
      | 0 => simp at h; exact absurd h hxq
      | (j + 1) =>
        simp only [List.cons_append, List.getElem?_cons_succ] at h
        have hih := ih j h
        obtain ⟨k, rfl⟩ : ∃ k, j = k + 1 := ⟨j - 1, by omega⟩
        refine ⟨by omega, ?_⟩
        simpa using hih.2

theorem splitNl_ne_nil : ∀ l : List Char, splitNl l ≠ []
  | [] => by simp [splitNl]
  | c :: t => by
    simp only [splitNl]
    cases hsp : splitNl t with
    | nil => simp
    | cons h1 hs => by_cases hc : c = nlC <;> simp [hc]

theorem splitNl_append (x r : List Char) :
    splitNl (x ++ nlC :: r) = splitNl x ++ splitNl r := by
  induction x with
  | nil =>
    rw [List.nil_append]
    show splitNl (nlC :: r) = splitNl [] ++ splitNl r
    simp only [splitNl]
    cases hsp : splitNl r with
    | nil => exact absurd hsp (splitNl_ne_nil r)
    | cons h hs => simp
  | cons c t ih =>
    rw [List.cons_append]
    show splitNl (c :: (t ++ nlC :: r)) = _
    simp only [splitNl, ih]
    cases hsp : splitNl t with
    | nil => exact absurd hsp (splitNl_ne_nil t)
    | cons h1 hs =>
      by_cases hc : c = nlC
      · simp [hc]
      · simp [hc]

theorem joinNl_splitNl (stmts : List (List Char)) (h : stmts ≠ []) :
    splitNl (joinNl stmts) = (stmts.map splitNl).flatten := by
  induction stmts with
  | nil => exact absurd rfl h
  | cons s rest ih =>
    cases rest with
    | nil => simp [joinNl]
    | cons s2 r2 =>
      have hj : joinNl (s :: s2 :: r2) = s ++ nlC :: joinNl (s2 :: r2) := rfl
      rw [hj, splitNl_append, ih (by simp)]
      simp

/-- Claim C10: escape_sql output contains no newline, carriage return or tab;
every single quote in the output is immediately preceded by a backslash; and
consequently the lines of the newline-joined batch request are exactly the
statements' own lines in order. -/
theorem c10_escape_line_safety :
    (∀ s : List Char, ∀ c ∈ escape_sql s, c ≠ nlC ∧ c ≠ crC ∧ c ≠ tabC) ∧
    (∀ (s : List Char) (i : Nat), (escape_sql s)[i]? = some qtC →
      1 ≤ i ∧ (escape_sql s)[i - 1]? = some bsC) ∧
    (∀ stmts : List (List Char), stmts ≠ [] →
      splitNl (joinNl stmts) = (stmts.map splitNl).flatten) := by
  refine ⟨escape_no_ctl, ?_, joinNl_splitNl⟩
  intro s i h
  rw [escape_sql_eq_flatMap] at h ⊢
  exact escape_quote_escaped s i h

/-- Witness for C10: the escaped single quote of the one-character input. -/
theorem c10_witness :
    1 ≤ 1 ∧ (escape_sql [qtC])[1 - 1]? = some bsC :=
  c10_escape_line_safety.2.1 [qtC] 1 (by decide)

/-! ## rfind and trim lemmas -/

theorem rfindNl_eq_none {l : List Char} (h : ∀ c ∈ l, c ≠ nlC) :
    rfindNl l = none := by
  induction l with
  | nil => rfl
  | cons c t ih =>
    simp only [rfindNl, ih (fun d hd => h d (List.mem_cons_of_mem c hd))]
    simp [h c (List.mem_cons_self c t)]

theorem rfindNl_spec {l : List Char} {i : Nat} (h : rfindNl l = some i) :
    i < l.length ∧ l[i]? = some nlC := by
  induction l generalizing i with
  | nil => simp [rfindNl] at h
  | cons c t ih =>
    simp only [rfindNl] at h
    cases hsp : rfindNl t with
    | some j =>
      rw [hsp] at h
      simp only [Option.some.injEq] at h
      subst h
      have hj := ih hsp
      refine ⟨by simp only [List.length_cons]; omega, ?_⟩
      simpa using hj.2
    | none =>
      rw [hsp] at h
      by_cases hc : c = nlC
      · rw [if_pos hc] at h
        simp only [Option.some.injEq] at h
        subst h
        subst hc
        exact ⟨by simp, by simp⟩
      · rw [if_neg hc] at h
        exact absurd h (by simp)

theorem trimToLine_of_none {t : List Char} (h : rfindNl t = none) (target : Nat) :
    trimToLine t target = t := by
  simp [trimToLine, h]

theorem trimToLine_cases (t : List Char) (target : Nat) :
    trimToLine t target = t ∨
      ∃ i, rfindNl t = some i ∧ target / 2 < i ∧ trimToLine t target = t.take i := by
  unfold trimToLine
  cases hr : rfindNl t with
  | none => exact Or.inl rfl
  | some i =>
    by_cases hh : target / 2 < i
    · exact Or.inr ⟨i, rfl, hh, by dsimp only; rw [if_pos hh]⟩
    · exact Or.inl (by dsimp only; rw [if_neg hh])

theorem trimToLine_length_le (t : List Char) (target : Nat) :
    (trimToLine t target).length ≤ t.length := by
  rcases trimToLine_cases t target with h | ⟨i, _, _, h⟩
  · rw [h]
  · rw [h]
    simp only [List.length_take]
    omega

/-! ## Payload sizer: text truncation with empty tables (claim C4) -/

theorem preTruncate_nil_tables (text : List Char)
    (hover : MAX_SQL_BODY_SIZE < text.length * 11 / 10 + 2 + SQL_OVERHEAD_ESTIMATE) :
    preTruncate text [] =
      ⟨trimToLine (text.take 836885) 836885, [], [lbC, rbC], 0, true⟩ := by
  have e : utf8len (listJson ([] : List (List Char))) = 2 := by decide
  simp only [preTruncate, e]
  rw [if_pos (by simpa using hover)]
  rw [if_pos (by decide)]
  rfl

/-- Claim C4 (amended): for text of length L with empty tables, if the size
estimate floor(1.1 L) + 2 + 1024 stays at or below the 900 KB target, the
saved text is unmodified; otherwise the saved text is strictly shorter than
L and is either the plain 836885-character cut or ends at a newline boundary
(the code trims back to the last newline only when it lies past the halfway
point of the cut). -/
theorem c4_empty_tables (text : List Char) :
    (text.length * 11 / 10 + 2 + SQL_OVERHEAD_ESTIMATE ≤ MAX_SQL_BODY_SIZE →
      (preTruncate text []).text = text) ∧
    (MAX_SQL_BODY_SIZE < text.length * 11 / 10 + 2 + SQL_OVERHEAD_ESTIMATE →
      (preTruncate text []).text.length < text.length ∧
      ((preTruncate text []).text = text.take 836885 ∨
        endsAtLineBoundary text (preTruncate text []).text)) := by
  constructor
  · intro hle
    have e : utf8len (listJson ([] : List (List Char))) = 2 := by decide
    simp only [preTruncate, e]
    rw [if_neg (by omega)]
  · intro hover
    have hL : 836887 ≤ text.length := by
      have hm : MAX_SQL_BODY_SIZE = 921600 := rfl
      have hs : SQL_OVERHEAD_ESTIMATE = 1024 := rfl
      rw [hm, hs] at hover
      omega
    rw [preTruncate_nil_tables text hover]
    dsimp only
    rcases trimToLine_cases (text.take 836885) 836885 with htr | ⟨i, hri, hhalf, htr⟩
    · rw [htr]
      refine ⟨?_, Or.inl rfl⟩
      simp only [List.length_take]
      omega
    · have hispec := rfindNl_spec hri
      have hilt : i < 836885 := by
        have := hispec.1
        simp only [List.length_take] at this
        omega
      rw [htr, List.take_take]
      have hmin : min i 836885 = i := by omega
      rw [hmin]
      have hleni : (text.take i).length = i := by
        simp only [List.length_take]
        omega
      refine ⟨by omega, Or.inr ⟨by omega, ?_⟩⟩
      rw [hleni]
      have hnl := hispec.2
      rw [List.getElem?_take] at hnl
      rwa [if_pos hilt] at hnl

/-- Witness for C4: a two-character text stays unmodified. -/
theorem c4_witness :
    (preTruncate (("ab").toList) []).text = ("ab").toList :=
  (c4_empty_tables (("ab").toList)).1 (by decide)

/-- Counterexample for C4 as stated: a newline-free text of 836887 characters
is truncated (so the claim's else-branch applies) but the output is a plain
mid-line cut, not a newline boundary. -/
theorem c4_counterexample :
    MAX_SQL_BODY_SIZE <
      (List.replicate 836887 (Char.ofNat 97)).length * 11 / 10 + 2 +
        SQL_OVERHEAD_ESTIMATE ∧
    (preTruncate (List.replicate 836887 (Char.ofNat 97)) []).text ≠
      List.replicate 836887 (Char.ofNat 97) ∧
    ¬ endsAtLineBoundary (List.replicate 836887 (Char.ofNat 97))
      (preTruncate (List.replicate 836887 (Char.ofNat 97)) []).text := by
  have htext : (preTruncate (List.replicate 836887 (Char.ofNat 97)) []).text =
      List.replicate 836885 (Char.ofNat 97) := by
    rw [preTruncate_nil_tables _ (by rw [List.length_replicate]; decide)]
    dsimp only
    rw [List.take_replicate]
    rw [show min 836885 836887 = 836885 from by decide]
    exact trimToLine_of_none (rfindNl_eq_none (by
      intro c hc
      rw [List.eq_of_mem_replicate hc]
      decide)) _
  refine ⟨by rw [List.length_replicate]; decide, ?_, ?_⟩
  · rw [htext]
    intro heq
    have hlen := congrArg List.length heq
    simp only [List.length_replicate] at hlen
    omega
  · rw [htext]
    intro hb
    rcases hb with ⟨_, hnl⟩
    rw [List.length_replicate, List.getElem?_replicate] at hnl
    simp only [show (836885 < 836887) = True from by simp, if_true] at hnl
    exact absurd hnl (by decide)

/-! ## Payload sizer: oversized tables (claim C5) -/

theorem keepTables_take (b : Nat) :
    ∀ (ts : List (List Char)) (r : Nat),
      ∃ k, k ≤ ts.length ∧ keepTables b ts r = ts.take k := by
  intro ts
  induction ts with
  | nil => exact fun r => ⟨0, Nat.le_refl _, rfl⟩
  | cons t rest ih =>
    intro r
    by_cases h : b < r + utf8len t + 2
    · exact ⟨0, by simp, by simp [keepTables, h]⟩
    · rcases ih (r + utf8len t + 2) with ⟨k, hk, hkeq⟩
      refine ⟨k + 1, ?_, ?_⟩
      · simp only [List.length_cons]
        omega
      · simp [keepTables, h, hkeq]

theorem keepTables_cost (b : Nat) :
    ∀ (ts : List (List Char)) (r : Nat), r ≤ b →
      r + tableCost (keepTables b ts r) ≤ b := by
  intro ts
  induction ts with
  | nil =>
    intro r hr
    show r + tableCost [] ≤ b
    simp only [tableCost, List.map_nil, List.sum_nil]
    omega
  | cons t rest ih =>
    intro r hr
    by_cases h : b < r + utf8len t + 2
    · show r + tableCost (if b < r + utf8len t + 2 then [] else _) ≤ b
      rw [if_pos h]
      simp only [tableCost, List.map_nil, List.sum_nil]
      omega
    · have hacc : r + utf8len t + 2 ≤ b := by omega
      have hrec := ih (r + utf8len t + 2) hacc
      show r + tableCost (if b < r + utf8len t + 2 then [] else
        t :: keepTables b rest (r + utf8len t + 2)) ≤ b
      rw [if_neg h]
      simp only [tableCost, List.map_cons, List.sum_cons] at hrec ⊢
      omega

theorem jsonJoin_utf8len :
    ∀ ts : List (List Char), ts ≠ [] →
      utf8len (jsonJoin ts) + 2 = tableCost ts := by
  intro ts
  induction ts with
  | nil => intro h; exact absurd rfl h
  | cons t rest ih =>
    intro _
    cases rest with
    | nil => simp [jsonJoin, tableCost]
    | cons t2 r2 =>
      have hj : jsonJoin (t :: t2 :: r2) = t ++ [commaC, spC] ++ jsonJoin (t2 :: r2) := rfl
      rw [hj, utf8len_append, utf8len_append]
      have hsep : utf8len [commaC, spC] = 2 := by decide
      have hrest := ih (by simp)
      simp only [tableCost, List.map_cons, List.sum_cons] at hrest ⊢
      omega

theorem listJson_utf8len (ts : List (List Char)) (h : ts ≠ []) :
    utf8len (listJson ts) = tableCost ts := by
  have hj : listJson ts = [lbC] ++ jsonJoin ts ++ [rbC] := rfl
  rw [hj, utf8len_append, utf8len_append]
  have h1 : utf8len [lbC] = 1 := by decide
  have h2 : utf8len [rbC] = 1 := by decide
  have := jsonJoin_utf8len ts h
  omega

theorem preTruncate_big_keptTables (text : List Char) (tables : List (List Char))
    (hbig : MAX_SQL_BODY_SIZE < utf8len (listJson tables)) :
    (preTruncate text tables).keptTables = keepTables (200 * 1024) tables 2 := by
  simp only [preTruncate]
  rw [if_pos (by omega)]
  rw [if_neg (by omega)]

theorem preTruncate_big_tablesStr (text : List Char) (tables : List (List Char))
    (hbig : MAX_SQL_BODY_SIZE < utf8len (listJson tables)) :
    (preTruncate text tables).tablesStr =
      listJson (keepTables (200 * 1024) tables 2) := by
  simp only [preTruncate]
  rw [if_pos (by omega)]
  rw [if_neg (by omega)]

theorem preTruncate_le (text : List Char) (tables : List (List Char))
    (hle : text.length * 11 / 10 + utf8len (listJson tables) +
      SQL_OVERHEAD_ESTIMATE ≤ MAX_SQL_BODY_SIZE) :
    preTruncate text tables = ⟨text, tables, listJson tables, tables.length, false⟩ := by
  simp only [preTruncate]
  rw [if_neg (by omega)]

/-- Claim C5: when the combined encoded size of the tables alone exceeds the
900 KB target ceiling and the text is non-empty, the kept tables are a
strict initial segment (in original order) of the input tables, chosen to
fit the 200 KB sub-budget, and the output text is non-empty only when budget
remains after the kept tables. -/
theorem c5_oversized_tables (text : List Char) (tables : List (List Char))
    (htext : text ≠ [])
    (hbig : MAX_SQL_BODY_SIZE < utf8len (listJson tables)) :
    (∃ k, k < tables.length ∧
      (preTruncate text tables).keptTables = tables.take k) ∧
    utf8len (preTruncate text tables).tablesStr ≤ 200 * 1024 ∧
    ((preTruncate text tables).text ≠ [] →
      utf8len (preTruncate text tables).tablesStr + SQL_OVERHEAD_ESTIMATE <
        MAX_SQL_BODY_SIZE) := by
  have htne : tables ≠ [] := by
    intro h
    subst h
    revert hbig
    decide
  have hcost : 2 + tableCost (keepTables (200 * 1024) tables 2) ≤ 200 * 1024 :=
    keepTables_cost (200 * 1024) tables 2 (by omega)
  have hstr : utf8len (listJson (keepTables (200 * 1024) tables 2)) ≤ 200 * 1024 := by
    rcases hke : keepTables (200 * 1024) tables 2 with _ | ⟨t, r⟩
    · decide
    · rw [← hke]
      rw [listJson_utf8len _ (by rw [hke]; simp)]
      rw [hke] at hcost ⊢
      omega
  rw [preTruncate_big_keptTables text tables hbig, preTruncate_big_tablesStr text tables hbig]
  refine ⟨?_, hstr, ?_⟩
  · rcases keepTables_take (200 * 1024) tables 2 with ⟨k, hk, hkeq⟩
    refine ⟨k, ?_, hkeq⟩
    rcases Nat.lt_or_ge k tables.length with hlt | hge
    · exact hlt
    · exfalso
      have hkl : k = tables.length := by omega
      rw [hkl, List.take_length] at hkeq
      rw [hkeq] at hcost
      have hjl := listJson_utf8len tables htne
      have hm : MAX_SQL_BODY_SIZE = 921600 := rfl
      omega
  · intro _
    have hm : MAX_SQL_BODY_SIZE = 921600 := rfl
    have hs : SQL_OVERHEAD_ESTIMATE = 1024 := rfl
    omega

/-- Witness for C5: one table whose dumps string is 921700 bytes together
with a one-character text. -/
theorem c5_witness :
    (∃ k, k < ([List.replicate 921700 (Char.ofNat 97)] : List (List Char)).length ∧
      (preTruncate [Char.ofNat 104] [List.replicate 921700 (Char.ofNat 97)]).keptTables =
        ([List.replicate 921700 (Char.ofNat 97)] : List (List Char)).take k) ∧
    utf8len (preTruncate [Char.ofNat 104]
      [List.replicate 921700 (Char.ofNat 97)]).tablesStr ≤ 200 * 1024 ∧
    ((preTruncate [Char.ofNat 104] [List.replicate 921700 (Char.ofNat 97)]).text ≠ [] →
      utf8len (preTruncate [Char.ofNat 104]
        [List.replicate 921700 (Char.ofNat 97)]).tablesStr + SQL_OVERHEAD_ESTIMATE <
        MAX_SQL_BODY_SIZE) := by
  apply c5_oversized_tables
  · simp
  · have hJ : listJson [List.replicate 921700 (Char.ofNat 97)] =
        [lbC] ++ List.replicate 921700 (Char.ofNat 97) ++ [rbC] := rfl
    rw [hJ, utf8len_append, utf8len_append, utf8len_replicate]
    have ha : (Char.ofNat 97).utf8Size = 1 := by decide
    rw [ha]
    decide

/-! ## Payload sizer: the 1 MiB hard-limit check (claim C1) -/

theorem flatten_replicate_nil (n : Nat) :
    (List.replicate n ([] : List Char)).flatten = [] := by
  induction n with
  | zero => rfl
  | succ m ih => simp [List.replicate_succ, ih]

theorem escape_repl_bs (n : Nat) :
    escape_sql (List.replicate n bsC) = List.replicate (2 * n) bsC := by
  rw [escape_sql_replicate, show escChar bsC = [bsC, bsC] from by decide,
    flatten_replicate_pair]

theorem escape_repl_nul (n : Nat) :
    escape_sql (List.replicate n nulC) = [] := by
  rw [escape_sql_replicate, show escChar nulC = [] from by decide,
    flatten_replicate_nil]

theorem escape_take_le (l : List Char) (k : Nat) :
    utf8len (escape_sql (l.take k)) ≤ utf8len (escape_sql l) := by
  conv_rhs => rw [← List.take_append_drop k l]
  rw [escape_sql_append, utf8len_append]
  omega

theorem trimToLine_take (l : List Char) (n : Nat) :
    ∃ j, trimToLine (l.take n) n = l.take j := by
  rcases trimToLine_cases (l.take n) n with h | ⟨i, _, _, h⟩
  · exact ⟨n, h⟩
  · rw [h, List.take_take]
    exact ⟨min i n, rfl⟩

theorem ce1Text_len : ce1Text.length = 836886 := by
  unfold ce1Text
  rw [List.length_append, List.length_replicate, List.length_replicate]

theorem ce1Text_ne : ce1Text ≠ [] := by
  apply List.ne_nil_of_length_pos
  rw [ce1Text_len]
  omega

theorem ce1_pre : preTruncate ce1Text [] = ⟨ce1Text, [], listJson [], 0, false⟩ := by
  apply preTruncate_le
  rw [ce1Text_len]
  decide

theorem ce1_escape : escape_sql ce1Text = List.replicate 1048600 bsC := by
  show escape_sql (List.replicate 524300 bsC ++ List.replicate 312586 nulC) = _
  rw [escape_sql_append, escape_repl_bs, escape_repl_nul, List.append_nil]

theorem ce1_sql0_len :
    utf8len (buildSaveSql ("f").toList 0 (docTypeOf []) [] 836886 ce1Text
      (listJson []) 0 ("processed").toList false) = 1048922 := by
  simp only [buildSaveSql]
  rw [if_neg ce1Text_ne, ce1_escape, ce1Text_len]
  simp only [utf8len_append, utf8len_replicate]
  decide

theorem ce1_take :
    ce1Text.take 625006 = List.replicate 524300 bsC ++ List.replicate 100706 nulC := by
  show (List.replicate 524300 bsC ++ List.replicate 312586 nulC).take 625006 = _
  rw [List.take_append_eq_append_take, List.take_replicate, List.length_replicate,
    List.take_replicate]
  rw [show min 625006 524300 = 524300 from by decide]
  rw [show (625006 - 524300 : Nat) = 100706 from by decide]
  rw [show min 100706 312586 = 100706 from by decide]

theorem ce1_trim :
    trimToLine (ce1Text.take 625006) 625006 = ce1Text.take 625006 := by
  apply trimToLine_of_none
  apply rfindNl_eq_none
  rw [ce1_take]
  intro c hc
  rcases List.mem_append.mp hc with h | h <;> rw [List.eq_of_mem_replicate h] <;> decide

theorem ce1_final_len :
    utf8len (buildSaveSql ("f").toList 0 (docTypeOf []) [] 836886
      (List.replicate 524300 bsC ++ List.replicate 100706 nulC) (listJson []) 0
      ("processed").toList true) = 1048943 := by
  simp only [buildSaveSql]
  rw [if_neg (by
    apply List.ne_nil_of_length_pos
    rw [List.length_append, List.length_replicate, List.length_replicate]
    omega)]
  rw [escape_sql_append, escape_repl_bs, escape_repl_nul, List.append_nil]
  rw [show (List.replicate 524300 bsC ++ List.replicate 100706 nulC).length = 625006
    from by rw [List.length_append, List.length_replicate, List.length_replicate]]
  simp only [utf8len_append, utf8len_replicate]
  decide

theorem ce1_first_attempt :
    sizerSubmitted ("f").toList 0 [] [] ce1Text [] =
      buildSaveSql ("f").toList 0 (docTypeOf []) [] 836886
        (List.replicate 524300 bsC ++ List.replicate 100706 nulC) (listJson []) 0
        ("processed").toList true := by
  unfold sizerSubmitted firstAttemptSql
  rw [ce1_pre]
  dsimp only
  rw [ce1Text_len, ce1_sql0_len]
  rw [if_pos (by decide : HARD_BODY_LIMIT < 1048922)]
  rw [show emergencyTarget 836886 1048922 = 625006 from by decide]
  rw [ce1_trim, ce1_take]

/-- Counterexample for C1 as stated: for this extracted text (backslashes
followed by NUL characters) with no tables, the first build exceeds the hard
1 MiB limit, the emergency re-truncation runs, and the request then submitted
is still over 1 MiB (1048943 bytes). -/
theorem c1_counterexample :
    HARD_BODY_LIMIT < utf8len (sizerSql0 ("f").toList 0 [] [] ce1Text []) ∧
    HARD_BODY_LIMIT < utf8len (sizerSubmitted ("f").toList 0 [] [] ce1Text []) := by
  constructor
  · unfold sizerSql0
    rw [ce1_pre]
    dsimp only
    rw [ce1Text_len, ce1_sql0_len]
    decide
  · rw [ce1_first_attempt, ce1_final_len]
    decide

theorem trimToLine_take_ne (l : List Char) (target : Nat) (hl : l ≠ [])
    (ht : 1 ≤ target) : trimToLine (l.take target) target ≠ [] := by
  have hlp : 1 ≤ l.length := List.length_pos.mpr hl
  rcases trimToLine_cases (l.take target) target with h | ⟨i, hri, hh, h⟩
  · rw [h]
    apply List.ne_nil_of_length_pos
    simp only [List.length_take]
    omega
  · rw [h]
    apply List.ne_nil_of_length_pos
    have hspec := rfindNl_spec hri
    have h1 := hspec.1
    simp only [List.length_take] at h1 ⊢
    omega

theorem preTruncate_text_ne (text : List Char) (tables : List (List Char))
    (h : text ≠ []) : (preTruncate text tables).text ≠ [] := by
  simp only [preTruncate]
  split
  · split
    · rename_i h1 h2
      apply trimToLine_take_ne _ _ h
      unfold pyTrunc10Div11
      rw [if_pos (by omega : (0 : Int) ≤ (MAX_SQL_BODY_SIZE : Int) -
        (utf8len (listJson tables) : Int) - (SQL_OVERHEAD_ESTIMATE : Int))]
      omega
    · apply trimToLine_take_ne _ _ h
      have hmx : (50000 : Int) ≤
          max (pyTrunc10Div11 ((MAX_SQL_BODY_SIZE : Int) -
            (utf8len (listJson (keepTables (200 * 1024) tables 2)) : Int) -
            (SQL_OVERHEAD_ESTIMATE : Int))) 50000 := le_max_right _ _
      omega
  · exact h

/-- The proportional 0.85 emergency target is strictly below the current
text length whenever the actual size exceeds the hard limit. -/
theorem emergencyTarget_lt (len A : Nat) (hlen : 1 ≤ len)
    (hA : HARD_BODY_LIMIT < A) : emergencyTarget len A < len := by
  have hH : HARD_BODY_LIMIT = 1048576 := rfl
  unfold emergencyTarget
  have hm : MAX_SQL_BODY_SIZE = 921600 := rfl
  rw [hm]
  apply Nat.div_lt_of_lt_mul
  calc len * 921600 * 85 = len * 78336000 := by ring
    _ < len * (A * 100) := by
        apply mul_lt_mul_of_pos_left _ (by omega)
        omega
    _ = A * 100 * len := Nat.mul_comm _ _

/-- Trimming a proper prefix to a line boundary stays strictly shorter than
the original list. -/
theorem trim_take_length_lt (l : List Char) (T : Nat) (hT : T < l.length) :
    (trimToLine (l.take T) T).length < l.length := by
  have h1 := trimToLine_length_le (l.take T) T
  simp only [List.length_take] at h1
  omega

set_option maxRecDepth 4096 in
set_option maxHeartbeats 800000 in
/-- Claim C1 (amended): when the actual encoded size of the first build
exceeds the hard 1 MiB limit, the request submitted is the rebuild whose
text is the proportional 0.85 re-truncation of the pre-truncated text —
strictly shorter, and never enlarging the escaped text — but the rebuild is
submitted without a further size check, so it is not guaranteed to be under
1 MiB. -/
theorem c1_emergency_truncation (fid : List Char) (sizeBytes : Nat)
    (docUrl docHash : List Char) (extractedText : List Char)
    (tablesJson : List (List Char)) (htext : extractedText ≠ [])
    (hover : HARD_BODY_LIMIT <
      utf8len (sizerSql0 fid sizeBytes docUrl docHash extractedText tablesJson)) :
    sizerSubmitted fid sizeBytes docUrl docHash extractedText tablesJson =
      buildSaveSql fid sizeBytes (docTypeOf docUrl) docHash extractedText.length
        (sizerEmergencyText fid sizeBytes docUrl docHash extractedText tablesJson)
        (preTruncate extractedText tablesJson).tablesStr
        (preTruncate extractedText tablesJson).tcnt ("processed").toList true ∧
    (sizerEmergencyText fid sizeBytes docUrl docHash extractedText tablesJson).length <
      (preTruncate extractedText tablesJson).text.length ∧
    utf8len (escape_sql
        (sizerEmergencyText fid sizeBytes docUrl docHash extractedText tablesJson)) ≤
      utf8len (escape_sql (preTruncate extractedText tablesJson).text) := by
  have hpre := preTruncate_text_ne extractedText tablesJson htext
  have hlen1 : 1 ≤ (preTruncate extractedText tablesJson).text.length :=
    List.length_pos.mpr hpre
  have htarget := emergencyTarget_lt
    (preTruncate extractedText tablesJson).text.length
    (utf8len (sizerSql0 fid sizeBytes docUrl docHash extractedText tablesJson))
    hlen1 hover
  refine ⟨?_, ?_, ?_⟩
  · simp only [sizerSubmitted, firstAttemptSql, sizerEmergencyText, sizerSql0]
    unfold sizerSql0 at hover
    rw [if_pos hover]
  · exact trim_take_length_lt _ _ htarget
  · rcases trimToLine_take (preTruncate extractedText tablesJson).text
        (emergencyTarget (preTruncate extractedText tablesJson).text.length
          (utf8len (sizerSql0 fid sizeBytes docUrl docHash extractedText tablesJson)))
      with ⟨j, hj⟩
    show utf8len (escape_sql (trimToLine _ _)) ≤ _
    rw [hj]
    exact escape_take_le _ _

/-- Witness for C1 (amended): the counterexample input drives the emergency
path, and the re-truncated text is strictly shorter. -/
theorem c1_witness :
    (sizerEmergencyText ("f").toList 0 [] [] ce1Text []).length <
      (preTruncate ce1Text []).text.length := by
  have hover : HARD_BODY_LIMIT < utf8len (sizerSql0 ("f").toList 0 [] [] ce1Text []) := by
    unfold sizerSql0
    rw [ce1_pre]
    dsimp only
    rw [ce1Text_len, ce1_sql0_len]
    decide
  exact (c1_emergency_truncation ("f").toList 0 [] [] ce1Text [] ce1Text_ne hover).2.1

/-- Claim C9 (amended): the record normalizer is a pure function of the raw
record implementing the amended rule set: the first space-delimited token of
DATE_TIME as the date; the first segment before the `<br/>` multi-value
delimiter, stripped, for stock code and name; root-relative links resolved
against the known base URL; the entities `&#x3b;` and `&amp;` decoded in the
title; whitespace collapse and non-printable stripping applied to the stock
name and the title. -/
theorem c9_normalizer (r : RawRecord) : parse_api_record r = normalizeSpecAmended r :=
  rfl

/-- Counterexample to C9 as stated: for DATE_TIME `11/02/2026 19:10` the
source takes the first space-delimited token `11/02/2026` as the date, not
the first slash-delimited token `11` described by the claim. -/
theorem c9_counterexample :
    (parse_api_record ⟨("11/02/2026 19:10").toList, [], [], [], []⟩).date ≠
      specDateRule ("11/02/2026 19:10").toList := by
  decide

/-- Claim C6 (amended): on a 413 or connection-reset class backend error the
save retries exactly once, with all tables dropped and the text clamped to
the fixed 500 KB fallback cut — trimmed back to the last line only when that
newline lies past the midpoint of the fallback target, so the retry text can
end mid-line; the retry's success decides the outcome, a second failure
yields the http_413_truncation_failed reason tag; and the persist phase
never aborts: it emits exactly one status write per downloaded document. -/
theorem c6_413_retry (resp1 resp2 : QueryRes) (fid : List Char) (sizeBytes : Nat)
    (docUrl docHash extractedText : List Char) (tablesJson : List (List Char))
    (h1 : hasError resp1 = true) (h413 : is413 resp1 = true) :
    saveDocumentToFiling resp1 resp2 fid sizeBytes docUrl docHash extractedText
        tablesJson =
      ⟨!(hasError resp2),
        if hasError resp2 then ("http_413_truncation_failed").toList else [],
        [firstAttemptSql fid sizeBytes (docTypeOf docUrl) docHash extractedText.length
            (preTruncate extractedText tablesJson),
          buildSaveSql fid sizeBytes (docTypeOf docUrl) docHash extractedText.length
            (trimToLine (extractedText.take (500 * 1024)) (500 * 1024))
            ("[]").toList 0 ("processed").toList true]⟩ ∧
    ∀ (env : P2Env) (docs : List DlDoc),
      ((persistPhase env docs).updates).length = docs.length := by
  constructor
  · by_cases hb : hasError resp2 = true
    · simp [saveDocumentToFiling, h1, h413, hb]
    · rw [Bool.not_eq_true] at hb
      simp [saveDocumentToFiling, h1, h413, hb]
  · intro env docs
    induction docs with
    | nil => rfl
    | cons d ds ih =>
      simp only [persistPhase]
      split <;> simp [ih]

/-- Counterexample to C6 as stated: on a 600000-character newline-free text
the 500 KB fallback keeps exactly the first 512000 characters, a cut that
does not fall on a line boundary of the text. -/
theorem c6_counterexample :
    trimToLine ((List.replicate 600000 (Char.ofNat 97)).take (500 * 1024)) (500 * 1024) =
      List.replicate 512000 (Char.ofNat 97) ∧
    ¬ endsAtLineBoundary (List.replicate 600000 (Char.ofNat 97))
        (List.replicate 512000 (Char.ofNat 97)) := by
  constructor
  · rw [List.take_replicate]
    have hmin : min (500 * 1024) 600000 = 512000 := by decide
    rw [hmin]
    apply trimToLine_of_none
    apply rfindNl_eq_none
    intro c hc
    rw [List.eq_of_mem_replicate hc]
    decide
  · rintro ⟨h1, h2⟩
    rw [List.length_replicate] at h2
    have hx : (List.replicate 600000 (Char.ofNat 97))[512000]? =
        some (Char.ofNat 97) := by
      rw [List.getElem?_eq_getElem (by rw [List.length_replicate]; omega)]
      rw [List.getElem_replicate]
    rw [hx] at h2
    exact (by decide : ¬ (some (Char.ofNat 97) = some nlC)) h2

/-- Witness for C6 (amended): a concrete 413 response followed by a clean
retry response drives the retry path to success. -/
theorem c6_witness :
    (saveDocumentToFiling ⟨true, ("HTTP 413").toList⟩ ⟨false, []⟩ ("f1").toList 7
        ("/doc/x.pdf").toList ("h").toList ("abc").toList []).success = true := by
  have h := c6_413_retry ⟨true, ("HTTP 413").toList⟩ ⟨false, []⟩ ("f1").toList 7
      ("/doc/x.pdf").toList ("h").toList ("abc").toList [] (by decide) (by decide)
  rw [h.1]
  decide

/-- Claim C8: every per-document download failure marks the filing skipped
with a reason and neither aborts the batch nor bumps the error count: the
download phase accounts every task as either a document or a skipped update
with a nonempty reason; an HTTP error yields reason http_{code}, any other
exception error:{name}, an unsupported extension unsupported_type, an
oversized body too_large; and in the concrete 3-filing run with one 404 URL
the two good filings end processed, the third skipped with http_404, and the
error count stays 0. -/
theorem c8_download_failures (http : List Char → HttpRes)
    (tasks : List (List Char × List Char)) :
    ((downloadPhase http tasks).docs.length + (downloadPhase http tasks).updates.length
        = tasks.length) ∧
    (∀ u ∈ (downloadPhase http tasks).updates,
        u.status = ("skipped").toList ∧ u.reason ≠ []) ∧
    (∀ url code,
        SUPPORTED_EXTENSIONS.any (fun ext => ext.isSuffixOf (urlStem url)) = true →
        url ≠ [] → http url = HttpRes.httpError code →
        downloadDocument http url = ([], 0, ("http_").toList ++ natChars code)) ∧
    (∀ url n,
        SUPPORTED_EXTENSIONS.any (fun ext => ext.isSuffixOf (urlStem url)) = true →
        url ≠ [] → http url = HttpRes.exc n →
        downloadDocument http url = ([], 0, ("error:").toList ++ n)) ∧
    (∀ url, url ≠ [] →
        SUPPORTED_EXTENSIONS.any (fun ext => ext.isSuffixOf (urlStem url)) = false →
        downloadDocument http url = ([], 0, ("unsupported_type").toList)) ∧
    (∀ url clen body,
        SUPPORTED_EXTENSIONS.any (fun ext => ext.isSuffixOf (urlStem url)) = true →
        url ≠ [] → http url = HttpRes.ok clen body → MAX_DOWNLOAD_SIZE < body.length →
        downloadDocument http url = ([], 0, ("too_large").toList)) ∧
    ((runPhase2 env8ce 10 3).updates =
        [⟨("c").toList, ("skipped").toList, ("http_404").toList⟩,
         ⟨("a").toList, ("processed").toList, []⟩,
         ⟨("b").toList, ("processed").toList, []⟩] ∧
      (runPhase2 env8ce 10 3).stats.errors = 0) := by
  refine ⟨?_, ?_, ?_, ?_, ?_, ?_, ?_⟩
  · induction tasks with
    | nil => rfl
    | cons t ts ih =>
      simp only [downloadPhase]
      split <;> simp [List.length_cons] <;> omega
  · induction tasks with
    | nil => intro u hu; cases hu
    | cons t ts ih =>
      intro u hu
      simp only [downloadPhase] at hu
      by_cases hr : (downloadDocument http t.2).1 ≠ []
      · rw [if_pos hr] at hu
        exact ih u hu
      · rw [if_neg hr] at hu
        dsimp only at hu
        rcases List.mem_cons.mp hu with hu | hu
        · subst hu
          refine ⟨rfl, ?_⟩
          dsimp only
          split
          · decide
          · assumption
        · exact ih u hu
  · intro url code hsup hne hh
    unfold downloadDocument
    rw [if_neg hne]
    dsimp only
    rw [hsup, Bool.not_true, if_neg (by decide : ¬ (false = true)), hh]
  · intro url n hsup hne hh
    unfold downloadDocument
    rw [if_neg hne]
    dsimp only
    rw [hsup, Bool.not_true, if_neg (by decide : ¬ (false = true)), hh]
  · intro url hne hsup
    unfold downloadDocument
    rw [if_neg hne]
    dsimp only
    rw [hsup, Bool.not_false, if_pos rfl]
  · intro url clen body hsup hne hh hbig
    unfold downloadDocument
    rw [if_neg hne]
    dsimp only
    rw [hsup, Bool.not_true, if_neg (by decide : ¬ (false = true)), hh]
    dsimp only
    rcases clen with _ | v
    · dsimp only
      rw [if_neg (by decide : ¬ (false = true)), if_pos hbig]
    · dsimp only
      by_cases hv : MAX_DOWNLOAD_SIZE < v
      · rw [if_pos (by rw [decide_eq_true hv])]
      · rw [if_neg (by rw [decide_eq_false hv]; decide), if_pos hbig]
  · constructor
    · decide
    · decide

/-- Witness for C8: the 404 URL of the concrete run is reported as a skip
with reason http_404, and the run's error count is 0. -/
theorem c8_witness :
    downloadDocument env8ce.http ("/doc/c.pdf").toList =
      ([], 0, ("http_").toList ++ natChars 404) ∧
    (runPhase2 env8ce 10 3).stats.errors = 0 := by
  have h := c8_download_failures env8ce.http []
  exact ⟨h.2.2.1 ("/doc/c.pdf").toList 404 (by decide) (by decide) (by decide),
    h.2.2.2.2.2.2.2⟩

/-- Loop invariant of run_phase2 under an always-stalling backend that
honors the LIMIT: entering with at most 2 recorded stalls, the loop adds at
most `3 - stalls` further batch summaries and never drives total_processed
past the effective limit. -/
theorem phase2Loop_stall_bound (env : P2Env) (bs effLimit : Nat)
    (hfl : ∀ n k, (env.fetch n k).length ≤ k)
    (hstall : ∀ n k, 1 ≤ k →
      (buildTasks (env.fetch n k)).tasks ≠ [] ∧
      (persistPhase env
          (downloadPhase env.http (buildTasks (env.fetch n k)).tasks).docs).saved +
        (downloadPhase env.http (buildTasks (env.fetch n k)).tasks).skipped = 0) :
    ∀ (fuel : Nat) (st : LoopSt),
      st.stats.totalProcessed ≤ effLimit → st.stalls ≤ 2 →
      (phase2Loop env bs effLimit fuel st).batches.length ≤
          st.batches.length + (3 - st.stalls) ∧
      (phase2Loop env bs effLimit fuel st).stats.totalProcessed ≤ effLimit := by
  intro fuel
  induction fuel with
  | zero =>
    intro st h1 _
    exact ⟨Nat.le_add_right _ _, h1⟩
  | succ fuel ih =>
    intro st h1 h2
    simp only [phase2Loop]
    by_cases hlt : st.stats.totalProcessed < effLimit
    · rw [if_pos hlt]
      by_cases hf :
          env.fetch (st.batchNum + 1) (min bs (effLimit - st.stats.totalProcessed)) = []
      · rw [if_pos hf]
        exact ⟨Nat.le_add_right _ _, h1⟩
      · rw [if_neg hf]
        have hk1 : 1 ≤ min bs (effLimit - st.stats.totalProcessed) := by
          rcases Nat.eq_zero_or_pos (min bs (effLimit - st.stats.totalProcessed))
            with h0 | h0
          · exfalso
            apply hf
            rw [h0]
            have hl := hfl (st.batchNum + 1) 0
            rw [Nat.le_zero] at hl
            exact List.length_eq_zero.mp hl
          · exact h0
        obtain ⟨htne, hstl⟩ := hstall (st.batchNum + 1) _ hk1
        rw [if_neg htne, if_pos hstl]
        have hlenb := le_trans
          (hfl (st.batchNum + 1) (min bs (effLimit - st.stats.totalProcessed)))
          (Nat.min_le_right _ _)
        by_cases h3 : 3 ≤ st.stalls + 1
        · rw [if_pos h3]
          dsimp only
          constructor
          · rw [List.length_append]
            simp only [List.length_cons, List.length_nil]
            omega
          · omega
        · rw [if_neg h3]
          constructor
          · refine le_trans (ih _ ?_ ?_).1 ?_
            · dsimp only
              omega
            · dsimp only
              omega
            · dsimp only
              rw [List.length_append]
              simp only [List.length_cons, List.length_nil]
              omega
          · refine (ih _ ?_ ?_).2
            · dsimp only
              omega
            · dsimp only
              omega
    · rw [if_neg hlt]
      exact ⟨Nat.le_add_right _ _, h1⟩

/-- Claim C7 (amended): against a backend that honors the LIMIT clause and
whose every nonempty batch builds tasks yet changes zero statuses (nothing
saved, nothing skipped in download), the driver terminates after at most 3
batches; total_processed never exceeds the effective limit, but the stall
counter is checked only after total_processed has been advanced by the full
batch, so the run can end with total_processed equal to the limit rather
than strictly below it. -/
theorem c7_stall_termination (env : P2Env) (bs limit : Nat)
    (hfl : ∀ n k, (env.fetch n k).length ≤ k)
    (hstall : ∀ n k, 1 ≤ k →
      (buildTasks (env.fetch n k)).tasks ≠ [] ∧
      (persistPhase env
          (downloadPhase env.http (buildTasks (env.fetch n k)).tasks).docs).saved +
        (downloadPhase env.http (buildTasks (env.fetch n k)).tasks).skipped = 0) :
    (runPhase2 env bs limit).batches.length ≤ 3 ∧
    (runPhase2 env bs limit).stats.totalProcessed ≤
      (if 0 < limit then limit else env.countMissing) := by
  simp only [runPhase2]
  by_cases hc : env.countMissing = 0
  · rw [if_pos hc]
    exact ⟨Nat.zero_le _, Nat.zero_le _⟩
  · rw [if_neg hc]
    have h := phase2Loop_stall_bound env bs
      (if 0 < limit then limit else env.countMissing) hfl hstall
      ((if 0 < limit then limit else env.countMissing) + 1)
      ⟨⟨env.countMissing, 0, 0, 0, 0, 0, 0⟩, 0, 0, [], []⟩
      (Nat.zero_le _) (Nat.zero_le _)
    constructor
    · have h1 := h.1
      simpa using h1
    · exact h.2

/-- Counterexample to C7 as stated: with batch size 1 and limit 3 against a
backend whose every batch downloads its document but fails every save, the
run executes exactly 3 stalled batches and the stall guard fires only after
total_processed has already reached the limit — the returned stats do not
satisfy total_processed < limit. -/
theorem c7_counterexample :
    (runPhase2 env7ce 1 3).batches.length = 3 ∧
    (∀ b ∈ (runPhase2 env7ce 1 3).batches, b.saved + b.skippedDl = 0) ∧
    ¬ ((runPhase2 env7ce 1 3).stats.totalProcessed < 3) := by
  decide

/-- Witness for C7 (amended): the stalling environment satisfies the
hypotheses, and its run stops within 3 batches without exceeding the
limit. -/
theorem c7_witness :
    (runPhase2 env7ce 1 3).batches.length ≤ 3 ∧
    (runPhase2 env7ce 1 3).stats.totalProcessed ≤
      (if 0 < 3 then 3 else env7ce.countMissing) := by
  refine c7_stall_termination env7ce 1 3 ?_ ?_
  · intro n k
    by_cases hk : 1 ≤ k
    · show (if 1 ≤ k then [c7rec] else []).length ≤ k
      rw [if_pos hk]
      simpa using hk
    · show (if 1 ≤ k then [c7rec] else []).length ≤ k
      rw [if_neg hk]
      exact Nat.zero_le k
  · intro n k hk
    have hfe : env7ce.fetch n k = [c7rec] := by
      show (if 1 ≤ k then [c7rec] else []) = [c7rec]
      rw [if_pos hk]
    rw [hfe]
    exact ⟨by decide, by decide⟩

end Hkex
